import Mathlib

/-!
Verification of the anchor codec, highlight store and coordinator protocol of
the browser-extension repository.

The development shallowly embeds the TypeScript sources:

* `src/extension/src/services/highlight-manager.ts` — the anchor codec
  (`serializeRange`, `getTextOffset`, `deserializeRange`, `findRangeAtOffset`,
  `getContext`, `getXPath`, `getNodeByXPath`);
* the PDF viewer (`createPDFHighlight`, `handleMouseUp`, its `getContext`);
* the content script (`handleTextSelection`, `handleKeyboardShortcut`);
* the IndexedDB helper layer (`db-helpers.ts`: `documentHelpers`,
  `pageTextHelpers`, `highlightHelpers`, `noteHelpers`, `markDirty`) together
  with the Dexie schema of `db.ts` (in particular the compound primary key
  `[entity_type+entity_id]` of the `syncState` table);
* the background service worker's `chrome.runtime.onMessage` listener.

DOM trees are modelled as rose trees of element/text nodes, DOM `Range`s as
pairs of (path, character-offset) boundary points, and `Range.prototype.toString`
as the slice of the in-order text of the root between the absolute character
positions of the two boundary points, which is exactly what the DOM stringifier
computes.  Thrown DOM exceptions (`document.evaluate` on an invalid expression,
`setStart`/`setEnd` on an out-of-range offset) are modelled with `Except`.
-/

deriving instance DecidableEq for Except

namespace EmbedAI

/-- Text content is modelled as a list of characters so that offsets,
slicing and stripping are directly computable and provable. -/
abbrev Str := List Char

/-- JavaScript `String.prototype.trim` (restricted to ASCII whitespace,
which is all the sources produce). -/
def strip (s : Str) : Str :=
  ((s.dropWhile Char.isWhitespace).reverse.dropWhile Char.isWhitespace).reverse

/-- JavaScript `String.prototype.substring`: clamps both arguments into
`[0, length]` and swaps them when they are out of order. -/
def jsSubstring (s : Str) (a b : Nat) : Str :=
  let a' := min a s.length
  let b' := min b s.length
  ((s.drop (min a' b')).take (max a' b' - min a' b'))

/-- Does `needle` occur at the start of `haystack`? -/
def startsWith : Str → Str → Bool
  | _, [] => true
  | [], _ :: _ => false
  | a :: as, b :: bs => a = b && startsWith as bs

/-- `haystack.indexOf(needle) !== -1`: does `needle` occur anywhere in
`haystack`? -/
def occursIn (needle haystack : Str) : Bool :=
  match haystack with
  | [] => needle.isEmpty
  | _ :: rest => startsWith haystack needle || occursIn needle rest

/-- A DOM node: an element with a tag name, an attribute list and children,
or a text node carrying character data. -/
inductive DomNode where
  | text (s : Str)
  | elem (tag : String) (attrs : List (String × String)) (children : List DomNode)

/-- A node is addressed by its path of child indices from the root. -/
abbrev Path := List Nat

/-- Look up the node at a path. -/
def nodeAt : DomNode → Path → Option DomNode
  | n, [] => some n
  | .text _, _ :: _ => none
  | .elem _ _ cs, i :: p =>
    match cs[i]? with
    | some c => nodeAt c p
    | none => none

mutual

/-- All nodes of a tree in document (pre-)order, paired with their paths.
This is the visit order of a `TreeWalker` rooted at the node. -/
def nodesPre : DomNode → List (Path × DomNode)
  | .text s => [([], .text s)]
  | .elem t a cs => ([], .elem t a cs) :: nodesPreList cs 0

/-- Pre-order node enumeration of a child list, starting at child index `i`. -/
def nodesPreList : List DomNode → Nat → List (Path × DomNode)
  | [], _ => []
  | c :: rest, i =>
    (nodesPre c).map (fun q => (i :: q.1, q.2)) ++ nodesPreList rest (i + 1)

end

/-- The text leaves of a tree in document order: the sequence a
`TreeWalker(root, NodeFilter.SHOW_TEXT)` produces. -/
def leaves (n : DomNode) : List (Path × Str) :=
  (nodesPre n).filterMap (fun q =>
    match q.2 with
    | .text s => some (q.1, s)
    | .elem _ _ _ => none)

/-- The full in-order text of a tree (concatenation of all text leaves). -/
def fullText (n : DomNode) : Str :=
  ((leaves n).map Prod.snd).flatten

/-- `textContent.length` of a whole subtree. -/
def textLen (n : DomNode) : Nat :=
  (fullText n).length

/-- Total text length of the first `k` nodes of a child list. -/
def childrenTextLen (cs : List DomNode) (k : Nat) : Nat :=
  ((cs.take k).map textLen).sum

/-- Absolute character position (in `fullText` of the root) of the DOM
boundary point `(node-at-path, offset)`.  For a text node the offset counts
characters; for an element it counts children, so the position is the total
text length of the children before it.  Out-of-range data is clamped; all
uses are on valid boundary points. -/
def absPos : DomNode → Path → Nat → Nat
  | .text s, [], off => min off s.length
  | .elem _ _ cs, [], off => childrenTextLen cs off
  | .text _, _ :: _, _ => 0
  | .elem _ _ cs, i :: p, off =>
    childrenTextLen cs i +
      (match cs[i]? with
       | some c => absPos c p off
       | none => 0)

/-- A live DOM `Range`: two boundary points.  A `Range` produced by the DOM
API always has its start at or before its end and in-bounds offsets. -/
structure RangeM where
  sPath : Path
  sOff : Nat
  ePath : Path
  eOff : Nat
deriving DecidableEq, Repr

/-- `Range.prototype.toString`: the characters of the root's in-order text
between the absolute positions of the two boundary points. -/
def rangeText (t : DomNode) (r : RangeM) : Str :=
  ((fullText t).drop (absPos t r.sPath r.sOff)).take
    (absPos t r.ePath r.eOff - absPos t r.sPath r.sOff)

/-- Strict lexicographic order on paths-with-offsets; boundary point `a` is
before boundary point `b` in tree order iff `lexLt (aPath ++ [aOff])
(bPath ++ [bOff])`. -/
def lexLt : List Nat → List Nat → Bool
  | [], [] => false
  | [], _ :: _ => true
  | _ :: _, [] => false
  | a :: as, b :: bs => a < b || (a == b && lexLt as bs)

/-- The list-of-numbers key of a boundary point, compared with `lexLt`. -/
def boundaryKey (p : Path) (off : Nat) : List Nat := p ++ [off]

/-- Validate the offset of a `setStart`/`setEnd` call: a negative offset
wraps to a huge unsigned value and throws `IndexSizeError`, an offset past
the node's length (text) or child count (element) throws, and a node that is
not in the tree cannot be produced by the callers.  `none` models a throw. -/
def validBoundary (t : DomNode) (p : Path) (off : Int) : Option Nat :=
  if off < 0 then none
  else
    match nodeAt t p with
    | some (.text s) => if off.toNat ≤ s.length then some off.toNat else none
    | some (.elem _ _ cs) => if off.toNat ≤ cs.length then some off.toNat else none
    | none => none

/-- `document.createRange()` followed by `setStart(sp, so)` and
`setEnd(ep, eo)`: either offset out of range throws (`.error`); if the end
boundary is before the start boundary, `setEnd` collapses the range to the
end point. -/
def mkRangeI (t : DomNode) (sp : Path) (so : Int) (ep : Path) (eo : Int) :
    Except Unit RangeM :=
  match validBoundary t sp so, validBoundary t ep eo with
  | some o1, some o2 =>
    if lexLt (boundaryKey ep o2) (boundaryKey sp o1) then
      .ok ⟨ep, o2, ep, o2⟩
    else
      .ok ⟨sp, o1, ep, o2⟩
  | _, _ => .error ()

/-- The `while (currentNode = walker.nextNode())` loop of `getTextOffset`:
walk the text leaves accumulating length; on reaching the requested node
return the accumulated length plus the intra-node offset; if the node is
never visited, return the total accumulated length. -/
def gtoAux : List (Path × Str) → Nat → Path → Nat → Nat
  | [], cur, _, _ => cur
  | (q, s) :: rest, cur, p, off =>
    if q = p then cur + off else gtoAux rest (cur + s.length) p off

/-- `getTextOffset(node, offset)` of highlight-manager.ts: character offset
of a node position in the document, computed by a full text walk of the
root (`document.body`). -/
def getTextOffset (t : DomNode) (p : Path) (off : Nat) : Nat :=
  gtoAux (leaves t) 0 p off

/-- The walk loop of `findRangeAtOffset`.  `found` is the
`startNode`/`startNodeOffset` pair once set.  On the break iteration the
range is built with `createRange`/`setStart`/`setEnd` (`mkRangeI`); offsets
are `Int`s because the requested length is computed by JavaScript
subtraction and may be negative. -/
def fraLoop (t : DomNode) :
    List (Path × Str) → Int → Option (Path × Int) → Int → Int →
    Except Unit (Option RangeM)
  | [], _, _, _, _ => .ok none
  | (q, s) :: rest, cur, found, startOffset, len =>
    let nodeLength : Int := s.length
    let found' :=
      if found.isNone ∧ cur + nodeLength > startOffset then
        some (q, startOffset - cur)
      else found
    if cur + nodeLength ≥ startOffset + len then
      match found' with
      | none => .ok none
      | some (sp, so) => (mkRangeI t sp so q (startOffset + len - cur)).map some
    else
      fraLoop t rest (cur + nodeLength) found' startOffset len

/-- `findRangeAtOffset(startOffset, length)` of highlight-manager.ts:
locate the leaf/offset pair at `startOffset` and at `startOffset + length`
by a text walk of the root and build a `Range` there; `null` when either
boundary is not located. -/
def findRangeAtOffset (t : DomNode) (startOffset len : Int) :
    Except Unit (Option RangeM) :=
  fraLoop t (leaves t) 0 none startOffset len

/-- One step of an XPath location path as produced by `getXPath`:
`tag[index]` or `text()[index]`, the index being 1-based among
same-kind preceding siblings. -/
inductive XStep where
  | elemS (tag : String) (idx : Nat)
  | textS (idx : Nat)
deriving DecidableEq, Repr

/-- A serialized XPath: either the `//*[@id="..."]` shortcut or a `//`-
prefixed chain of steps.  `bySteps []` is the string `"//"`, which is not a
valid XPath expression — `document.evaluate` throws on it. -/
inductive XPathExpr where
  | byId (id : String)
  | bySteps (steps : List XStep)
deriving DecidableEq, Repr

/-- Attribute lookup on an element's attribute list. -/
def attrOf (attrs : List (String × String)) (name : String) : Option String :=
  (attrs.find? (fun a => a.1 = name)).map Prod.snd

/-- Does the child `cs[i]` match step `st`, with the step's sibling index
counted among preceding same-kind siblings (`div[2]` = second `div` child,
`text()[2]` = second text child)? -/
def stepMatches (t : DomNode) (base : Path) (i : Nat) (st : XStep) : Bool :=
  match nodeAt t base with
  | some (.elem _ _ cs) =>
    match cs[i]?, st with
    | some (.elem tg _ _), .elemS tag k =>
      tg = tag ∧
        ((cs.take i).countP (fun c =>
          match c with
          | .elem tg' _ _ => tg' = tg
          | .text _ => false)) + 1 = k
    | some (.text _), .textS k =>
      ((cs.take i).countP (fun c =>
        match c with
        | .text _ => true
        | .elem _ _ _ => false)) + 1 = k
    | _, _ => false
  | _ => false

/-- Check that the path suffix `p` matches the step list `sts`, each step on
the child axis below `base`. -/
def checkAlign (t : DomNode) : Path → Path → List XStep → Bool
  | _, [], [] => true
  | base, i :: p', st :: sts =>
    stepMatches t base i st && checkAlign t (base ++ [i]) p' sts
  | _, _, _ => false

/-- A node (at path `p`) is selected by `//s1[k1]/s2[k2]/…` iff its last
`|steps|` path components align with the steps: the anchor node of the
chain may be any node, so only the tail of the path is constrained. -/
def matchSteps (t : DomNode) (p : Path) (steps : List XStep) : Bool :=
  if p.length < steps.length then false
  else checkAlign t (p.take (p.length - steps.length))
    (p.drop (p.length - steps.length)) steps

/-- Is this node an element whose `id` attribute equals `s`? -/
def isElemWithId (n : DomNode) (s : String) : Bool :=
  match n with
  | .elem _ attrs _ => attrOf attrs "id" = some s
  | .text _ => false

/-- `getNodeByXPath` (via `document.evaluate` with
`XPathResult.FIRST_ORDERED_NODE_TYPE`): the first node in document order
selected by the expression, `none` when nothing matches, `.error` when the
expression is syntactically invalid (the bare `"//"`). -/
def evaluateXPath (t : DomNode) : XPathExpr → Except Unit (Option Path)
  | .byId s => .ok (((nodesPre t).find? (fun q => isElemWithId q.2 s)).map Prod.fst)
  | .bySteps [] => .error ()
  | .bySteps steps =>
    .ok (((nodesPre t).find? (fun q => matchSteps t q.1 steps)).map Prod.fst)

/-- The step recorded by `getXPath` for the child at index `i` below
`base`: tag name with 1-based index among preceding same-tag element
siblings, or `text()` with 1-based index among preceding text siblings. -/
def mkStep (t : DomNode) (base : Path) (i : Nat) : XStep :=
  match nodeAt t base with
  | some (.elem _ _ cs) =>
    match cs[i]? with
    | some (.elem tg _ _) =>
      .elemS tg (((cs.take i).countP (fun c =>
        match c with
        | .elem tg' _ _ => tg' = tg
        | .text _ => false)) + 1)
    | some (.text _) =>
      .textS (((cs.take i).countP (fun c =>
        match c with
        | .text _ => true
        | .elem _ _ _ => false)) + 1)
    | none => .textS 0
  | _ => .textS 0

/-- The `while (current && current !== document.body)` loop of `getXPath`,
unrolled root-to-node: one step per path component. -/
def buildSteps (t : DomNode) : Path → Path → List XStep
  | _, [] => []
  | base, i :: rest => mkStep t base i :: buildSteps t (base ++ [i]) rest

/-- `getXPath(node)`: the `//*[@id="..."]` shortcut when the node is an
element with a non-empty id, otherwise the `//`-joined step chain from the
root (`document.body`, the tree's root here) down to the node. -/
def getXPath (t : DomNode) (p : Path) : XPathExpr :=
  match nodeAt t p with
  | some (.elem _ attrs _) =>
    match attrOf attrs "id" with
    | some id => if id = "" then .bySteps (buildSteps t [] p) else .byId id
    | none => .bySteps (buildSteps t [] p)
  | _ => .bySteps (buildSteps t [] p)

/-- The serialized `Range` positions stored inside an extended anchor. -/
structure SerializedRangeM where
  startContainer : XPathExpr
  startOffset : Nat
  endContainer : XPathExpr
  endOffset : Nat
  commonAncestor : XPathExpr
deriving DecidableEq, Repr

/-- The persisted anchor.  `start_offset`/`end_offset`/... come from the
shared `HighlightAnchor` shape; `range`/`quoteText` are the extra fields of
the content script's `ExtendedAnchor` (absent on PDF anchors, which instead
set `page_number` and `quote_text`).  Absent JSON fields are `none`. -/
structure AnchorM where
  start_offset : Int
  end_offset : Int
  start_context : Str
  end_context : Str
  page_number : Option Int := none
  quote_text : Option Str := none
  range : Option SerializedRangeM := none
  quoteText : Option Str := none
deriving DecidableEq, Repr

/-- JavaScript truthiness of `extendedAnchor.quoteText`. -/
def quoteTruthy (a : AnchorM) : Bool :=
  match a.quoteText with
  | some q => !q.isEmpty
  | none => false

/-- `Range.commonAncestorContainer`: the deepest node containing both
boundary containers, i.e. the longest common prefix of the two paths. -/
def commonAncestorPath : Path → Path → Path
  | [], _ => []
  | _, [] => []
  | i :: p, j :: q => if i = j then i :: commonAncestorPath p q else []

/-- `getContext(range)` of highlight-manager.ts: up to 50 characters of
text before the start boundary / after the end boundary, taken from the
boundary's own text node; empty when the boundary container is not a text
node. -/
def getContext (t : DomNode) (r : RangeM) : Str × Str :=
  let pre :=
    match nodeAt t r.sPath with
    | some (.text s) => jsSubstring s (r.sOff - 50) r.sOff
    | _ => []
  let suf :=
    match nodeAt t r.ePath with
    | some (.text s) => jsSubstring s r.eOff (min s.length (r.eOff + 50))
    | _ => []
  (pre, suf)

/-- `serializeRange(range)` of highlight-manager.ts: `null` for an
all-whitespace selection, otherwise the fully populated extended anchor
(XPath positions, document offsets from the text walk, context windows and
the trimmed quote text). -/
def serializeRange (t : DomNode) (r : RangeM) : Option AnchorM :=
  let quote := strip (rangeText t r)
  if quote = [] then none
  else
    some
      { start_offset := (getTextOffset t r.sPath r.sOff : Int)
        end_offset := (getTextOffset t r.ePath r.eOff : Int)
        start_context := (getContext t r).1
        end_context := (getContext t r).2
        range := some
          { startContainer := getXPath t r.sPath
            startOffset := r.sOff
            endContainer := getXPath t r.ePath
            endOffset := r.eOff
            commonAncestor := getXPath t (commonAncestorPath r.sPath r.ePath) }
        quoteText := some quote }

/-- The stored-range tier of `deserializeRange` (its first block): evaluate
both container XPaths, rebuild the range, and accept it only when the
re-extracted text equals the anchor's `quoteText` after trimming.
`.ok none` means "fall through to `findRangeAtOffset`", `.error` a thrown
DOM exception (caught by `deserializeRange`). -/
def structuralReplay (t : DomNode) (a : AnchorM) : Except Unit (Option RangeM) :=
  match a.range with
  | none => .ok none
  | some sr => do
    let sN ← evaluateXPath t sr.startContainer
    let eN ← evaluateXPath t sr.endContainer
    match sN, eN with
    | some sp, some ep => do
      let r ← mkRangeI t sp (sr.startOffset : Int) ep (sr.endOffset : Int)
      if quoteTruthy a ∧ strip (rangeText t r) = strip (a.quoteText.getD []) then
        pure (some r)
      else
        pure none
    | _, _ => pure none

/-- `deserializeRange(anchor)`: try the stored range; on fall-through or on
a thrown exception, replay `anchor.start_offset`/`end_offset` with
`findRangeAtOffset`.  (When the fallback itself throws inside the `catch`
block the exception propagates, hence the `Except`.) -/
def deserializeRange (t : DomNode) (a : AnchorM) : Except Unit (Option RangeM) :=
  match structuralReplay t a with
  | .ok (some r) => .ok (some r)
  | .ok none => findRangeAtOffset t a.start_offset (a.end_offset - a.start_offset)
  | .error _ => findRangeAtOffset t a.start_offset (a.end_offset - a.start_offset)

/-- Is the range collapsed (`range.collapsed`)? -/
def collapsed (r : RangeM) : Bool :=
  r.sPath = r.ePath ∧ r.sOff = r.eOff

/-- `createHighlightFromSelection` up to persistence: `null` without a
selection, for a collapsed range, or when `serializeRange` fails; otherwise
the anchor that is sent to `PERSIST_HIGHLIGHT`. -/
def createHighlightFromSelection (t : DomNode) (sel : Option RangeM) :
    Option AnchorM :=
  match sel with
  | none => none
  | some r => if collapsed r then none else serializeRange t r

/-- Split a character list at spaces (the separator the sources use in
`class` attributes), keeping empty fields like `String.split`. -/
def splitSpaces : Str → Str → List Str
  | [], acc => [acc.reverse]
  | c :: rest, acc =>
    if c = ' ' then acc.reverse :: splitSpaces rest []
    else splitSpaces rest (c :: acc)

/-- Does the element's `class` attribute contain the given class name
(`classList.contains`)? -/
def hasClass (attrs : List (String × String)) (c : String) : Bool :=
  match attrOf attrs "class" with
  | some s => (splitSpaces s.toList []).contains c.toList
  | none => false

/-- Is the node at `p` an element whose class list contains `c`? -/
def elemHasClass (t : DomNode) (p : Path) (c : String) : Bool :=
  match nodeAt t p with
  | some (.elem _ attrs _) => hasClass attrs c
  | _ => false

/-- The ancestor walk of `closest`, on the reversed path (dropping the head
of the reversed path is moving to the parent). -/
def closestAux (t : DomNode) (c : String) : Path → Option Path
  | [] => if elemHasClass t [] c then some [] else none
  | i :: rest =>
    if elemHasClass t (i :: rest).reverse c then some (i :: rest).reverse
    else closestAux t c rest

/-- `element.closest(sel)` for a class selector, starting at the node at
`p` (inclusive) and walking up: the nearest ancestor-or-self element whose
class list contains `c`. -/
def closestWithClass (t : DomNode) (p : Path) (c : String) : Option Path :=
  closestAux t c p.reverse

/-- Parse a run of decimal digits. -/
def parseDigits : Str → Nat → Option Nat
  | [], acc => some acc
  | c :: rest, acc =>
    if c.isDigit then parseDigits rest (acc * 10 + (c.toNat - 48)) else none

/-- `parseInt` on the attribute strings the PDF viewer writes (non-empty
decimal digit strings; `parseInt` of anything else is `NaN`, which the
viewer never produces because it writes `data-page` itself). -/
def parseIntD (s : String) : Int :=
  match s.toList with
  | [] => 0
  | l => ((parseDigits l 0).getD 0 : Int)

/-- The page-number lookup of `createPDFHighlight`:
`range.commonAncestorContainer.parentElement?.closest('.pdf-page')`, then
`parseInt(pageElement.getAttribute('data-page') || '0')`, `0` when no
`.pdf-page` ancestor exists. -/
def pdfPageNumber (t : DomNode) (r : RangeM) : Int :=
  let ca := commonAncestorPath r.sPath r.ePath
  match ca with
  | [] => 0
  | _ :: _ =>
    match closestWithClass t ca.dropLast "pdf-page" with
    | some pe =>
      match nodeAt t pe with
      | some (.elem _ attrs _) => parseIntD ((attrOf attrs "data-page").getD "0")
      | _ => 0
    | none => 0

/-- The PDF viewer's `getContext(range, position)`: identical 50-character
window logic, one call per boundary. -/
def pdfGetContext (t : DomNode) (r : RangeM) (atStart : Bool) : Str :=
  let p := if atStart then r.sPath else r.ePath
  let off := if atStart then r.sOff else r.eOff
  match nodeAt t p with
  | some (.text s) =>
    if atStart then jsSubstring s (off - 50) off
    else jsSubstring s off (min s.length (off + 50))
  | _ => []

/-- `createPDFHighlight` up to persistence: `null` without a selection, for
a collapsed range or an all-whitespace quote; otherwise the PDF anchor —
placeholder offsets `0..quoteText.length`, context windows, the page
number, and no stored range. -/
def createPDFHighlight (t : DomNode) (sel : Option RangeM) : Option AnchorM :=
  match sel with
  | none => none
  | some r =>
    if collapsed r then none
    else
      let quote := strip (rangeText t r)
      if quote = [] then none
      else
        some
          { start_offset := 0
            end_offset := (quote.length : Int)
            start_context := pdfGetContext t r true
            end_context := pdfGetContext t r false
            page_number := some (pdfPageNumber t r)
            quote_text := some quote }

/-- The selection state seen by a `mouseup` handler: whether the range is
collapsed and the selection's text.  (`window.getSelection()` returning
`null`/no range is the `none` case at the call sites.) -/
structure SelState where
  isCollapsed : Bool
  text : Str
deriving DecidableEq, Repr

/-- `handleTextSelection` of content-script.ts, reduced to its decision:
does the handler reach `showHighlightButton` (the only path that can lead
to a mouse-created highlight)?  `inPopup` is `target.closest('#kc-action-popup')
|| target.closest('#kc-note-input')`, `within` is
`isSelectionWithinHighlight(selection)`. -/
def handleTextSelection (inPopup : Bool) (sel : Option SelState)
    (within : Bool) : Bool :=
  if inPopup then false
  else
    match sel with
    | none => false
    | some s =>
      if s.isCollapsed then false
      else
        let selectedText := strip s.text
        if selectedText.isEmpty || selectedText.length < 3 then false
        else if within then false
        else true

/-- `handleMouseUp` of the PDF viewer, reduced to the same decision: does
it reach `showActionPopup`? -/
def pdfHandleMouseUp (inPopup : Bool) (sel : Option SelState)
    (within : Bool) : Bool :=
  if inPopup then false
  else
    match sel with
    | none => false
    | some s =>
      if s.isCollapsed then false
      else
        let selectedText := strip s.text
        if selectedText.isEmpty || selectedText.length < 3 then false
        else if within then false
        else true

/-- `handleKeyboardShortcut` of content-script.ts on Cmd/Ctrl+Shift+L: with
a current document it calls `createHighlightFromSelection` directly, with
no length check of its own. -/
def handleKeyboardShortcut (t : DomNode) (hasDocumentId : Bool)
    (sel : Option RangeM) : Option AnchorM :=
  if hasDocumentId then createHighlightFromSelection t sel else none

/-! ## The record store (db.ts / db-helpers.ts)

The Dexie schema (db.ts) declares the primary keys: `documents`, `pageText`,
`highlights` and `notes` are keyed by their string `id`; `syncState` is keyed
by the *compound* index `[entity_type+entity_id]`.  An IndexedDB key is either
a string or an array of strings, and a string key never equals a compound key;
`IdbKey` models exactly this. -/

/-- An IndexedDB key as used by the tables here: a plain string primary key
or a two-component compound key. -/
inductive IdbKey where
  | str (s : String)
  | pair (a b : String)
deriving DecidableEq, Repr

/-- A `documents` row. -/
structure DocumentR where
  id : String
  type : String
  source : String
  title : Option String
  author : Option String
  status : String
  created_at : String
  updated_at : String
deriving DecidableEq, Repr

/-- A `pageText` row. -/
structure PageTextR where
  id : String
  document_id : String
  page_number : Int
  text : String
  char_start : Int
  char_end : Int
  extracted_at : String
deriving DecidableEq, Repr

/-- A `highlights` row. -/
structure HighlightR where
  id : String
  document_id : String
  anchor : AnchorM
  quote_text : Str
  color : Option String
  created_at : String
deriving DecidableEq, Repr

/-- A `notes` row (metadata reduced to the fields the helpers copy). -/
structure NoteR where
  id : String
  document_id : String
  highlight_id : Option String
  content : String
  tags : List String
  note_type : String
  created_from : String
  created_at : String
  updated_at : String
deriving DecidableEq, Repr

/-- A `syncState` row.  The stored object carries the extra `id` property
that `markDirty` writes; the table's primary key is the compound
`(entity_type, entity_id)`. -/
structure SyncStateR where
  id : String
  entity_type : String
  entity_id : String
  is_dirty : Bool
  last_synced_at : Option String
  sync_error : Option String
deriving DecidableEq, Repr

/-- The primary key of a `syncState` row under the schema
`'[entity_type+entity_id], …'`. -/
def ssKey (s : SyncStateR) : IdbKey := .pair s.entity_type s.entity_id

/-- `db.syncState.update(key, changes)`: modifies the row whose *primary*
key equals `key`; with a non-matching key (in particular any plain string
key against the compound primary key) it modifies nothing. -/
def ssUpdate (l : List SyncStateR) (k : IdbKey) (f : SyncStateR → SyncStateR) :
    List SyncStateR :=
  l.map (fun e => if ssKey e = k then f e else e)

/-- `db.syncState.delete(key)`: removes the row whose primary key equals
`key`; a plain string key removes nothing from the compound-keyed table. -/
def ssDelete (l : List SyncStateR) (k : IdbKey) : List SyncStateR :=
  l.filter (fun e => ssKey e ≠ k)

/-- The whole IndexedDB database (the tables the claims touch; `chunks`
rows are only ever filtered by `document_id`, so only that column is
kept). -/
structure DB where
  documents : List DocumentR := []
  pageText : List PageTextR := []
  chunks : List String := []
  highlights : List HighlightR := []
  notes : List NoteR := []
  syncState : List SyncStateR := []
deriving DecidableEq, Repr

/-- `markDirty(entityType, entityId)` of db-helpers.ts.  The existence
check queries the compound index; the update of an existing row passes the
*string* `existing.id` as key, which never matches the compound primary
key, so it modifies nothing; the add stores a fresh dirty row (with the
extra `id` property). -/
def markDirty (db : DB) (ty eid : String) : DB :=
  let key := ty ++ "_" ++ eid
  match db.syncState.find? (fun s => s.entity_type = ty ∧ s.entity_id = eid) with
  | some existing =>
    { db with
        syncState := ssUpdate db.syncState (.str existing.id)
          (fun e => { e with is_dirty := true, sync_error := none }) }
  | none =>
    { db with
        syncState := db.syncState ++
          [{ id := key, entity_type := ty, entity_id := eid, is_dirty := true
             last_synced_at := none, sync_error := none }] }

/-- `db.<table>.add` fails with a `ConstraintError` when a row with the
same primary key already exists. -/
def DupKey : String := "ConstraintError"

/-- Fields of a highlight-creation payload (`Omit<Highlight, 'id' | 'created_at'>`). -/
structure HighlightFields where
  document_id : String
  anchor : AnchorM
  quote_text : Str
  color : Option String
deriving DecidableEq, Repr

/-- `highlightHelpers.create`: generate an id and timestamp (passed in here,
since `crypto.randomUUID()`/`new Date()` are environment inputs), `add` the
row, then `markDirty('highlight', id)`. -/
def highlightCreate (db : DB) (genId now : String) (h : HighlightFields) :
    Except String (String × DB) :=
  if db.highlights.any (fun x => x.id = genId) then .error DupKey
  else
    let row : HighlightR :=
      { id := genId, document_id := h.document_id, anchor := h.anchor
        quote_text := h.quote_text, color := h.color, created_at := now }
    .ok (genId, markDirty { db with highlights := db.highlights ++ [row] }
      "highlight" genId)

/-- `highlightHelpers.getHighlightsByDocument`: the rows whose
`document_id` matches, sorted ascending by `created_at` (Dexie `sortBy`;
`insertionSort` is Mathlib's executable ascending sort). -/
def getHighlightsByDocumentR (db : DB) (d : String) : List HighlightR :=
  (db.highlights.filter (fun h => h.document_id = d)).insertionSort
    (fun a b => a.created_at ≤ b.created_at)

/-- `highlightHelpers.update`: merge changes into the row with the given
id (no-op when absent), then mark dirty. -/
def highlightUpdate (db : DB) (hid : String) (f : HighlightR → HighlightR) : DB :=
  markDirty
    { db with
        highlights := db.highlights.map (fun e => if e.id = hid then f e else e) }
    "highlight" hid

/-- `highlightHelpers.delete`: delete all notes whose `highlight_id` index
equals the id, delete the highlight row, then attempt
`db.syncState.delete('highlight_' + id)` — a string key against the
compound-keyed table. -/
def highlightDelete (db : DB) (hid : String) : DB :=
  { db with
      notes := db.notes.filter (fun n => n.highlight_id ≠ some hid)
      highlights := db.highlights.filter (fun h => h.id ≠ hid)
      syncState := ssDelete db.syncState (.str ("highlight_" ++ hid)) }

/-- Fields of a note-creation payload. -/
structure NoteFields where
  document_id : String
  highlight_id : Option String
  content : String
  tags : List String
  note_type : String
  created_from : String
deriving DecidableEq, Repr

/-- `noteHelpers.create`. -/
def noteCreate (db : DB) (genId now : String) (n : NoteFields) :
    Except String (String × DB) :=
  if db.notes.any (fun x => x.id = genId) then .error DupKey
  else
    let row : NoteR :=
      { id := genId, document_id := n.document_id, highlight_id := n.highlight_id
        content := n.content, tags := n.tags, note_type := n.note_type
        created_from := n.created_from, created_at := now, updated_at := now }
    .ok (genId, markDirty { db with notes := db.notes ++ [row] } "note" genId)

/-- `noteHelpers.update`: merge the changes and a fresh `updated_at` into
the row with the given id (no-op when absent), then mark dirty. -/
def noteUpdate (db : DB) (nid now : String) (f : NoteR → NoteR) : DB :=
  markDirty
    { db with
        notes := db.notes.map (fun e =>
          if e.id = nid then { f e with updated_at := now } else e) }
    "note" nid

/-- `noteHelpers.delete`: delete the note row, then attempt
`db.syncState.delete('note_' + id)`. -/
def noteDelete (db : DB) (nid : String) : DB :=
  { db with
      notes := db.notes.filter (fun n => n.id ≠ nid)
      syncState := ssDelete db.syncState (.str ("note_" ++ nid)) }

/-- Fields of a document-creation payload. -/
structure DocumentFields where
  type : String
  source : String
  title : Option String
  author : Option String
  status : String
deriving DecidableEq, Repr

/-- `documentHelpers.create`. -/
def documentCreate (db : DB) (genId now : String) (d : DocumentFields) :
    Except String (String × DB) :=
  if db.documents.any (fun x => x.id = genId) then .error DupKey
  else
    let row : DocumentR :=
      { id := genId, type := d.type, source := d.source, title := d.title
        author := d.author, status := d.status, created_at := now
        updated_at := now }
    .ok (genId, markDirty { db with documents := db.documents ++ [row] }
      "document" genId)

/-- `documentHelpers.update`. -/
def documentUpdate (db : DB) (did now : String) (f : DocumentR → DocumentR) : DB :=
  markDirty
    { db with
        documents := db.documents.map (fun e =>
          if e.id = did then { f e with updated_at := now } else e) }
    "document" did

/-- `documentHelpers.getBySource`: first row whose `source` equals the
locator. -/
def documentGetBySource (db : DB) (src : String) : Option DocumentR :=
  db.documents.find? (fun d => d.source = src)

/-- `documentHelpers.delete`: cascade pageText/chunks/highlights/notes by
`document_id`, delete the document row, then attempt
`db.syncState.delete('document_' + id)`. -/
def documentDelete (db : DB) (did : String) : DB :=
  { db with
      pageText := db.pageText.filter (fun p => p.document_id ≠ did)
      chunks := db.chunks.filter (fun c => c ≠ did)
      highlights := db.highlights.filter (fun h => h.document_id ≠ did)
      notes := db.notes.filter (fun n => n.document_id ≠ did)
      documents := db.documents.filter (fun d => d.id ≠ did)
      syncState := ssDelete db.syncState (.str ("document_" ++ did)) }

/-- Fields of a page-text creation payload. -/
structure PageTextFields where
  document_id : String
  page_number : Int
  text : String
  char_start : Int
  char_end : Int
deriving DecidableEq, Repr

/-- `pageTextHelpers.create` (no dirty marking — pageText is not synced). -/
def pageTextCreate (db : DB) (genId now : String) (p : PageTextFields) :
    Except String (String × DB) :=
  if db.pageText.any (fun x => x.id = genId) then .error DupKey
  else
    let row : PageTextR :=
      { id := genId, document_id := p.document_id, page_number := p.page_number
        text := p.text, char_start := p.char_start, char_end := p.char_end
        extracted_at := now }
    .ok (genId, { db with pageText := db.pageText ++ [row] })

/-! ## The coordinator (background service worker message listener) -/

/-- A request message, one constructor per `message.type` the listener
tests; `other` is every remaining kind (pass-through notifications and
unknown kinds alike). -/
inductive Msg where
  | createDocument (payload : DocumentFields)
  | getDocumentBySource (source : String)
  | createPageText (payload : PageTextFields)
  | persistHighlight (payload : HighlightFields)
  | getHighlightsByDocument (documentId : String)
  | persistNote (payload : NoteFields)
  | deleteHighlight (highlightId : String)
  | deleteNote (noteId : String)
  | openSidePanel
  | toggleSidePanel
  | other (ty : String)
deriving DecidableEq, Repr

/-- What `sendResponse` is called with; `noResponse` models the
`TOGGLE_SIDE_PANEL`-without-a-tab path, where no `sendResponse` call ever
happens. -/
inductive Response where
  | documentId (id : String)
  | document (d : Option DocumentR)
  | id (i : String)
  | highlights (hs : List HighlightR)
  | success
  | error (msg : String)
  | received
  | action (a : String)
  | noResponse
deriving DecidableEq, Repr

/-- The coordinator's full state: the database and the per-tab side-panel
open/closed map. -/
structure CoordState where
  db : DB
  sidePanelState : List (Nat × Bool) := []
deriving DecidableEq, Repr

/-- Set a tab's entry in the side-panel map. -/
def spSet (m : List (Nat × Bool)) (tab : Nat) (v : Bool) : List (Nat × Bool) :=
  (m.filter (fun e => e.1 ≠ tab)) ++ [(tab, v)]

/-- The `chrome.runtime.onMessage` listener of the background service
worker: dispatch on `message.type`; every database branch answers
`{error}` when its helper throws; the final line answers `{received:true}`
to everything that matched no branch. -/
def handleMessage (st : CoordState) (senderTab : Option Nat)
    (genId now : String) (m : Msg) : Response × CoordState :=
  match m with
  | .createDocument p =>
    match documentCreate st.db genId now p with
    | .ok (did, db') => (.documentId did, { st with db := db' })
    | .error e => (.error e, st)
  | .getDocumentBySource src => (.document (documentGetBySource st.db src), st)
  | .createPageText p =>
    match pageTextCreate st.db genId now p with
    | .ok (i, db') => (.id i, { st with db := db' })
    | .error e => (.error e, st)
  | .persistHighlight p =>
    match highlightCreate st.db genId now p with
    | .ok (i, db') => (.id i, { st with db := db' })
    | .error e => (.error e, st)
  | .getHighlightsByDocument d => (.highlights (getHighlightsByDocumentR st.db d), st)
  | .persistNote p =>
    match noteCreate st.db genId now p with
    | .ok (i, db') => (.id i, { st with db := db' })
    | .error e => (.error e, st)
  | .deleteHighlight hid => (.success, { st with db := highlightDelete st.db hid })
  | .deleteNote nid => (.success, { st with db := noteDelete st.db nid })
  | .openSidePanel =>
    match senderTab with
    | some tab =>
      (.received, { st with sidePanelState := spSet st.sidePanelState tab true })
    | none => (.received, st)
  | .toggleSidePanel =>
    match senderTab with
    | some tab =>
      if (st.sidePanelState.find? (fun e => e.1 = tab)).map Prod.snd = some true then
        (.action "close", { st with sidePanelState := spSet st.sidePanelState tab false })
      else
        (.action "open", { st with sidePanelState := spSet st.sidePanelState tab true })
    | none => (.noResponse, st)
  | .other _ => (.received, st)

/-! ## Derived views and specification predicates -/

/-- The text leaves of a child list, child by child (a derived view of
`leaves` used to reason block-wise about an element's leaf list). -/
def leavesOfList : List DomNode → Nat → List (Path × Str)
  | [], _ => []
  | c :: rest, i =>
    (leaves c).map (fun q => (i :: q.1, q.2)) ++ leavesOfList rest (i + 1)

/-- Total character count of a leaf list. -/
def leafTotal (l : List (Path × Str)) : Nat :=
  (l.map (fun q => q.2.length)).sum

/-- Characters accumulated before the first leaf with path `p`. -/
def cumUpTo : List (Path × Str) → Path → Nat
  | [], _ => 0
  | (q, s) :: rest, p => if q = p then 0 else s.length + cumUpTo rest p

/-- `p` is strictly before `q` in tree order however the two paths are
extended — the form of document order that holds between two text leaves. -/
def keyLtAll (p q : List Nat) : Prop :=
  ∀ xs ys, lexLt (p ++ xs) (q ++ ys) = true

/-- The spec's notion of a fully populated anchor for a selection `r` on
tree `t`: the structural position path is present, both document offsets
are the ones the in-order text walk computes, and the quote text is
present and non-empty.  (The context fields are total strings and are
always present.) -/
def SpecFullyPopulated (t : DomNode) (r : RangeM) (a : AnchorM) : Prop :=
  a.range.isSome = true ∧
  a.start_offset = (getTextOffset t r.sPath r.sOff : Int) ∧
  a.end_offset = (getTextOffset t r.ePath r.eOff : Int) ∧
  a.quoteText.getD (a.quote_text.getD []) ≠ []

instance (t : DomNode) (r : RangeM) (a : AnchorM) :
    Decidable (SpecFullyPopulated t r a) := by
  unfold SpecFullyPopulated; infer_instance

/-- The sync-state table contains a dirty marker keyed by
`(entityKind, entityId)`. -/
def dirtyMarker (db : DB) (ty eid : String) : Prop :=
  ∃ s ∈ db.syncState, s.entity_type = ty ∧ s.entity_id = eid ∧ s.is_dirty = true

instance (db : DB) (ty eid : String) : Decidable (dirtyMarker db ty eid) := by
  unfold dirtyMarker; infer_instance

/-! ## Concrete inputs for the counterexamples and witnesses -/

/-- A plain page: `<body>hello world</body>`. -/
def cexTreeHello : DomNode := .elem "body" [] [.text "hello world".toList]

/-- A stored web anchor whose XPaths no longer match anything (the `<p>`
was removed) and whose document offsets are stale: offset replay re-anchors
it to `"hello"` although the quote is `"world"`. -/
def cexAnchorStale : AnchorM :=
  { start_offset := 0, end_offset := 5, start_context := [], end_context := []
    quoteText := some "world".toList
    range := some
      { startContainer := .bySteps [.elemS "p" 1], startOffset := 0
        endContainer := .bySteps [.elemS "p" 1], endOffset := 5
        commonAncestor := .bySteps [.elemS "p" 1] } }

/-- A plain page: `<body>abc</body>`. -/
def cexTreeAbc : DomNode := .elem "body" [] [.text "abc".toList]

/-- A stored anchor for `<body>abc</body>` whose structural tier finds no
nodes and whose offsets lie beyond the document text, although its quote
`"abc"` is the document text itself. -/
def cexAnchorFindable : AnchorM :=
  { start_offset := 100, end_offset := 103, start_context := [], end_context := []
    quoteText := some "abc".toList
    range := some
      { startContainer := .bySteps [.elemS "p" 1], startOffset := 0
        endContainer := .bySteps [.elemS "p" 1], endOffset := 3
        commonAncestor := .bySteps [.elemS "p" 1] } }

/-- The selection of the whole text `"abc"` with both boundary points in
`document.body` itself (offsets count children): a real, non-collapsed,
non-whitespace DOM selection. -/
def cexRangeAtBody : RangeM := ⟨[], 0, [], 1⟩

/-- The anchor `serializeRange` produces for `cexRangeAtBody` on
`cexTreeAbc`: both XPaths are the invalid bare `"//"` and both walk
offsets equal the total text length `3`. -/
def cexAnchorAtBody : AnchorM :=
  { start_offset := 3, end_offset := 3, start_context := [], end_context := []
    quoteText := some "abc".toList
    range := some
      { startContainer := .bySteps [], startOffset := 0
        endContainer := .bySteps [], endOffset := 1
        commonAncestor := .bySteps [] } }

/-- A rendered PDF page:
`<body><div class="pdf-page" data-page="3">hello |world</div></body>`
with two text-layer spans modelled as two text leaves. -/
def cexTreePdf : DomNode :=
  .elem "body" []
    [.elem "div" [("class", "pdf-page"), ("data-page", "3")]
      [.text "hello ".toList, .text "world".toList]]

/-- The selection of `"world"` (the second text leaf) on the PDF page. -/
def cexRangePdf : RangeM := ⟨[0, 1], 0, [0, 1], 5⟩

/-- The anchor `createPDFHighlight` builds for that selection: no stored
range, placeholder offsets `0..5`, page number `3`. -/
def cexAnchorPdf : AnchorM :=
  { start_offset := 0, end_offset := 5, start_context := []
    end_context := [], page_number := some 3
    quote_text := some "world".toList }

/-- A plain page `<body><div>hi</div></body>`. -/
def cexTreeDivHi : DomNode := .elem "body" [] [.elem "div" [] [.text "hi".toList]]

/-- A selection of the whole text `"hi"` whose boundary containers are the
`div` element itself, with child offsets 0 and 1. -/
def cexRangeElemBounds : RangeM := ⟨[0], 0, [0], 1⟩

/-- A page `<body><p>hi</p></body>` on which structural replay succeeds. -/
def witTreeP : DomNode := .elem "body" [] [.elem "p" [] [.text "hi".toList]]

/-- The selection of `"hi"` inside the `<p>`. -/
def witRangeP : RangeM := ⟨[0, 0], 0, [0, 0], 2⟩

/-- A page `<body>a</body>` with a one-character selection. -/
def witTreeA : DomNode := .elem "body" [] [.text "a".toList]

/-- The one-character selection on `witTreeA`. -/
def witRangeA : RangeM := ⟨[0], 0, [0], 1⟩

/-- A store with one document, one highlight (dirty marker present, as
`highlightCreate` leaves it), and two notes: one on the highlight, one on
another highlight of the same document. -/
def witDB : DB :=
  { documents := [{ id := "d1", type := "web_page", source := "https://x.test/"
                    title := none, author := none, status := "local"
                    created_at := "2024-01-01T00:00:00Z"
                    updated_at := "2024-01-01T00:00:00Z" }]
    highlights := [{ id := "h1", document_id := "d1", anchor := cexAnchorPdf
                     quote_text := "world".toList, color := some "#FFFF0080"
                     created_at := "2024-01-01T00:00:01Z" }]
    notes := [{ id := "n1", document_id := "d1", highlight_id := some "h1"
                content := "on h1", tags := [], note_type := "summary"
                created_from := "manual", created_at := "2024-01-01T00:00:02Z"
                updated_at := "2024-01-01T00:00:02Z" },
              { id := "n2", document_id := "d1", highlight_id := some "h2"
                content := "on h2", tags := [], note_type := "summary"
                created_from := "manual", created_at := "2024-01-01T00:00:03Z"
                updated_at := "2024-01-01T00:00:03Z" }]
    syncState := [{ id := "highlight_h1", entity_type := "highlight"
                    entity_id := "h1", is_dirty := true, last_synced_at := none
                    sync_error := none }] }

/-- The anchor `serializeRange` produces for `cexRangeElemBounds` on
`cexTreeDivHi`: both walk offsets degenerate to the total text length. -/
def cexAnchorElemBounds : AnchorM :=
  { start_offset := 2, end_offset := 2, start_context := [], end_context := []
    quoteText := some "hi".toList
    range := some
      { startContainer := .bySteps [.elemS "div" 1], startOffset := 0
        endContainer := .bySteps [.elemS "div" 1], endOffset := 1
        commonAncestor := .bySteps [.elemS "div" 1] } }

/-- The anchor `serializeRange` produces for `witRangeP` on `witTreeP`;
structural replay resolves and accepts it. -/
def witAnchorP : AnchorM :=
  { start_offset := 0, end_offset := 2, start_context := [], end_context := []
    quoteText := some "hi".toList
    range := some
      { startContainer := .bySteps [.elemS "p" 1, .textS 1], startOffset := 0
        endContainer := .bySteps [.elemS "p" 1, .textS 1], endOffset := 2
        commonAncestor := .bySteps [.elemS "p" 1, .textS 1] } }

/-- The anchor of the one-character keyboard-shortcut highlight. -/
def witAnchorA : AnchorM :=
  { start_offset := 0, end_offset := 1, start_context := [], end_context := []
    quoteText := some "a".toList
    range := some
      { startContainer := .bySteps [.textS 1], startOffset := 0
        endContainer := .bySteps [.textS 1], endOffset := 1
        commonAncestor := .bySteps [.textS 1] } }

/-- The anchor of the one-character PDF keyboard-shortcut highlight. -/
def witAnchorAPdf : AnchorM :=
  { start_offset := 0, end_offset := 1, start_context := [], end_context := []
    page_number := some 0, quote_text := some "a".toList }

/-- Highlight fields used by the double-persist witness. -/
def witHFields : HighlightFields :=
  { document_id := "d1", anchor := cexAnchorPdf, quote_text := "q".toList
    color := none }

/-! ## Theorems -/

/-- A range accepted by the stored-range tier passed its trim-equality
check against the anchor's `quoteText`. -/
theorem structuralReplay_quote {t : DomNode} {a : AnchorM} {r : RangeM}
    (h : structuralReplay t a = .ok (some r)) :
    quoteTruthy a = true ∧
      strip (rangeText t r) = strip (a.quoteText.getD []) := by
  unfold structuralReplay at h
  simp only [bind, Except.bind, pure, Except.pure] at h
  repeat' split at h
  all_goals simp_all

/-- When the stored-range tier falls through or throws, `deserializeRange`
is exactly the offset replay. -/
theorem deserialize_fallback {t : DomNode} {a : AnchorM}
    (h : structuralReplay t a = .ok none ∨ structuralReplay t a = .error ()) :
    deserializeRange t a =
      findRangeAtOffset t a.start_offset (a.end_offset - a.start_offset) := by
  unfold deserializeRange
  rcases h with h | h <;> rw [h]

/-- C1 (counterexample): `deserializeRange` can return a non-null range —
via the offset-replay fallback `findRangeAtOffset` — whose extracted text,
after stripping, differs from the anchor's `quoteText`: on
`<body>hello world</body>`, a stale anchor with quote `"world"` and
offsets `0..5` resolves to `"hello"` with no exactness check. -/
theorem deserializeRange_fallback_unverified_cex :
    deserializeRange cexTreeHello cexAnchorStale =
      .ok (some ⟨[0], 0, [0], 5⟩) ∧
    strip (rangeText cexTreeHello ⟨[0], 0, [0], 5⟩) ≠
      strip (cexAnchorStale.quoteText.getD []) := by
  decide

/-- C1 (amended): the exactness check is applied only in the structural
(stored-range) tier: a range accepted by that tier always re-extracts, after
stripping, the anchor's `quoteText`; the offset-replay fallback performs no
such check (see the counterexample). -/
theorem structuralReplay_checks_quote (t : DomNode) (a : AnchorM) (r : RangeM)
    (h : structuralReplay t a = .ok (some r)) :
    quoteTruthy a = true ∧
      strip (rangeText t r) = strip (a.quoteText.getD []) :=
  structuralReplay_quote h

/-- C1 (witness): the amended theorem applied at a page where structural
replay accepts the stored range. -/
theorem structuralReplay_checks_quote_witness :
    quoteTruthy witAnchorP = true ∧
      strip (rangeText witTreeP witRangeP) =
        strip (witAnchorP.quoteText.getD []) :=
  structuralReplay_checks_quote witTreeP witAnchorP witRangeP (by decide)

/-- C2 (counterexample): there is no third resolution tier.  On
`<body>abc</body>` with an anchor whose quote `"abc"` occurs verbatim in the
document text but whose structural tier matches nothing and whose offsets
are out of range, `deserializeRange` returns null rather than searching for
the context concatenation or for the quote text. -/
theorem deserializeRange_no_third_tier_cex :
    occursIn (cexAnchorFindable.quoteText.getD [])
      (fullText cexTreeAbc) = true ∧
    deserializeRange cexTreeAbc cexAnchorFindable = .ok none := by
  decide

/-- C2 (amended): when the structural tier falls through or throws, the
final result is exactly the offset replay's — there is no further tier, so
resolution fails (`null`) whenever `findRangeAtOffset` fails, and the
offset-replay result is always preferred when the structural tier fails. -/
theorem deserializeRange_fallback_is_offset_replay (t : DomNode) (a : AnchorM)
    (h : structuralReplay t a = .ok none ∨ structuralReplay t a = .error ()) :
    deserializeRange t a =
      findRangeAtOffset t a.start_offset (a.end_offset - a.start_offset) :=
  deserialize_fallback h

/-- C2 (witness): the amended theorem applied to the counterexample
anchor. -/
theorem deserializeRange_fallback_is_offset_replay_witness :
    deserializeRange cexTreeAbc cexAnchorFindable =
      findRangeAtOffset cexTreeAbc cexAnchorFindable.start_offset
        (cexAnchorFindable.end_offset - cexAnchorFindable.start_offset) :=
  deserializeRange_fallback_is_offset_replay cexTreeAbc cexAnchorFindable
    (Or.inl (by decide))

/-- C3 (counterexample): the round-trip fails for a non-empty,
non-whitespace selection whose boundary containers are the root element
itself: on `<body>abc</body>` the selection `(body,0)-(body,1)` serializes
(quote `"abc"`), but resolving the anchor on the same unmutated tree
returns null — `getXPath` built the invalid expression `"//"` and both walk
offsets degenerate to the total length, so offset replay finds nothing. -/
theorem roundtrip_body_boundary_cex :
    strip (rangeText cexTreeAbc cexRangeAtBody) ≠ [] ∧
    collapsed cexRangeAtBody = false ∧
    serializeRange cexTreeAbc cexRangeAtBody = some cexAnchorAtBody ∧
    deserializeRange cexTreeAbc cexAnchorAtBody = .ok none := by
  decide

/-- C4 (counterexample): on the PDF surface the anchor is *not* fully
populated: `createPDFHighlight` stores no structural position path and sets
the document offsets to the placeholder `0..quote.length` instead of the
values of the in-order text walk (which here start at 6, not 0). -/
theorem pdf_anchor_partial_cex :
    createPDFHighlight cexTreePdf (some cexRangePdf) = some cexAnchorPdf ∧
    ¬ SpecFullyPopulated cexTreePdf cexRangePdf cexAnchorPdf ∧
    (getTextOffset cexTreePdf cexRangePdf.sPath cexRangePdf.sOff : Int) = 6 := by
  decide

/-- C4 (amended): on the web surface `serializeRange` always returns a
fully populated anchor (structural path, walk-computed offsets, non-empty
quote); on the PDF surface `createPDFHighlight` always omits the structural
path and uses the placeholder offsets `0..quote.length`, populating only
contexts, page number and quote. -/
theorem serialize_full_web_partial_pdf :
    (∀ (t : DomNode) (r : RangeM) (a : AnchorM),
      serializeRange t r = some a → SpecFullyPopulated t r a) ∧
    (∀ (t : DomNode) (sel : Option RangeM) (a : AnchorM),
      createPDFHighlight t sel = some a →
        a.range = none ∧ a.start_offset = 0 ∧
        a.end_offset = ((a.quote_text.getD []).length : Int) ∧
        a.page_number.isSome = true ∧ a.quote_text.getD [] ≠ []) := by
  constructor
  · intro t r a h
    unfold serializeRange at h
    by_cases hq : strip (rangeText t r) = []
    · simp [hq] at h
    · simp only [hq, if_false, Option.some.injEq] at h
      subst h
      exact ⟨rfl, rfl, rfl, hq⟩
  · intro t sel a h
    unfold createPDFHighlight at h
    rcases sel with _ | r
    · cases h
    by_cases hc : collapsed r = true
    · simp [hc] at h
    · by_cases hq : strip (rangeText t r) = []
      · simp [hc, hq] at h
      · simp only [hc, hq, if_false, Bool.false_eq_true, Option.some.injEq] at h
        subst h
        exact ⟨rfl, rfl, rfl, rfl, hq⟩

/-- C4 (witness): the amended theorem applied on both surfaces. -/
theorem serialize_full_web_partial_pdf_witness :
    SpecFullyPopulated witTreeP witRangeP witAnchorP ∧
    (cexAnchorPdf.range = none ∧ cexAnchorPdf.start_offset = 0 ∧
      cexAnchorPdf.end_offset = ((cexAnchorPdf.quote_text.getD []).length : Int) ∧
      cexAnchorPdf.page_number.isSome = true ∧
      cexAnchorPdf.quote_text.getD [] ≠ []) :=
  ⟨serialize_full_web_partial_pdf.1 witTreeP witRangeP witAnchorP (by decide),
   serialize_full_web_partial_pdf.2 cexTreePdf (some cexRangePdf) cexAnchorPdf
     (by decide)⟩

/-- C5 (counterexample): a serialization accepted on the web surface can
violate `documentOffsets.end > documentOffsets.start`: for the selection of
`"hi"` with element-node boundary containers on
`<body><div>hi</div></body>`, neither boundary node is visited by the text
walk, so `getTextOffset` returns the total length for both and the anchor
has `end_offset = start_offset = 2` (its quote is nevertheless non-empty). -/
theorem serialize_equal_offsets_cex :
    serializeRange cexTreeDivHi cexRangeElemBounds = some cexAnchorElemBounds ∧
    ¬ cexAnchorElemBounds.start_offset < cexAnchorElemBounds.end_offset ∧
    cexAnchorElemBounds.quoteText.getD [] ≠ [] := by
  decide

/-- C6 (counterexample): a request whose kind is none of the coordinator's
known kinds is answered with the generic acknowledgment
`{received: true}` — a silent no-op — not with an error payload. -/
theorem unknown_kind_silent_ack_cex :
    handleMessage ({ db := {} } : CoordState) none "gen" "now"
        (.other "BOGUS_KIND") =
      (.received, ({ db := {} } : CoordState)) := by
  decide

/-- C6 (amended): requests of unknown kind (including the pass-through
notification kinds) are acknowledged with `{received: true}` and leave the
store untouched; explicit error payloads are produced only when a known
kind's store operation throws (e.g. a key-constraint violation). -/
theorem unknown_acked_known_errors :
    (∀ (st : CoordState) (tab : Option Nat) (genId now ty : String),
      handleMessage st tab genId now (.other ty) = (.received, st)) ∧
    (∀ (st : CoordState) (tab : Option Nat) (genId now : String)
        (p : HighlightFields),
      (∃ x ∈ st.db.highlights, x.id = genId) →
      handleMessage st tab genId now (.persistHighlight p) = (.error DupKey, st)) ∧
    (∀ (st : CoordState) (tab : Option Nat) (genId now : String)
        (p : NoteFields),
      (∃ x ∈ st.db.notes, x.id = genId) →
      handleMessage st tab genId now (.persistNote p) = (.error DupKey, st)) := by
  refine ⟨fun st tab genId now ty => rfl, ?_, ?_⟩
  · intro st tab genId now p h
    have hany : st.db.highlights.any (fun x => x.id = genId) = true := by
      rcases h with ⟨x, hx, hid⟩
      exact List.any_eq_true.mpr ⟨x, hx, by simp [hid]⟩
    simp [handleMessage, highlightCreate, hany]
  · intro st tab genId now p h
    have hany : st.db.notes.any (fun x => x.id = genId) = true := by
      rcases h with ⟨x, hx, hid⟩
      exact List.any_eq_true.mpr ⟨x, hx, by simp [hid]⟩
    simp [handleMessage, noteCreate, hany]

/-- C6 (witness): the amended theorem at a notification kind and at a
duplicate-key persist. -/
theorem unknown_acked_known_errors_witness :
    handleMessage ({ db := witDB } : CoordState) none "gen" "now"
        (.other "HIGHLIGHT_CREATED") =
      (.received, ({ db := witDB } : CoordState)) ∧
    handleMessage ({ db := witDB } : CoordState) none "h1" "now"
        (.persistHighlight witHFields) =
      (.error DupKey, ({ db := witDB } : CoordState)) :=
  ⟨unknown_acked_known_errors.1 _ none "gen" "now" "HIGHLIGHT_CREATED",
   unknown_acked_known_errors.2.1 _ none "h1" "now" witHFields
     ⟨{ id := "h1", document_id := "d1", anchor := cexAnchorPdf
        quote_text := "world".toList, color := some "#FFFF0080"
        created_at := "2024-01-01T00:00:01Z" }, by decide, rfl⟩⟩

/-- C7: `highlightHelpers.delete` removes exactly the notes whose
`highlight_id` equals the deleted highlight's id — notes referencing other
highlights (of the same document or otherwise) survive — and removes
exactly the highlight row itself, leaving all other highlights in place. -/
theorem highlightDelete_cascade_exact (db : DB) (hid : String) :
    (∀ n : NoteR, n ∈ (highlightDelete db hid).notes ↔
      n ∈ db.notes ∧ n.highlight_id ≠ some hid) ∧
    (∀ h : HighlightR, h ∈ (highlightDelete db hid).highlights ↔
      h ∈ db.highlights ∧ h.id ≠ hid) := by
  refine ⟨fun n => ?_, fun h => ?_⟩ <;>
    simp [highlightDelete, List.mem_filter]

/-- C10: both mouse-selection paths (web `handleTextSelection`, PDF
`handleMouseUp`) bail out — showing no action popup, hence creating no
highlight — whenever the trimmed selection is shorter than 3 characters,
while the Cmd/Ctrl+Shift+L keyboard path happily highlights a one-character
selection on either surface. -/
theorem mouse_min_three_keyboard_unbounded :
    (∀ (inPopup : Bool) (s : SelState) (within : Bool),
      (strip s.text).length < 3 →
      handleTextSelection inPopup (some s) within = false) ∧
    (∀ (inPopup : Bool) (s : SelState) (within : Bool),
      (strip s.text).length < 3 →
      pdfHandleMouseUp inPopup (some s) within = false) ∧
    (handleKeyboardShortcut witTreeA true (some witRangeA) = some witAnchorA ∧
      (witAnchorA.quoteText.getD []).length = 1) ∧
    (createPDFHighlight witTreeA (some witRangeA) = some witAnchorAPdf ∧
      (witAnchorAPdf.quote_text.getD []).length = 1) := by
  refine ⟨?_, ?_, by decide, by decide⟩
  · intro inPopup s within hlen
    simp [handleTextSelection, hlen]
  · intro inPopup s within hlen
    simp [pdfHandleMouseUp, hlen]

/-- `markDirty` never touches the highlight table. -/
theorem markDirty_highlights (db : DB) (ty eid : String) :
    (markDirty db ty eid).highlights = db.highlights := by
  unfold markDirty
  split <;> rfl

/-- Deleting by a plain string key from the compound-keyed `syncState`
table removes nothing. -/
theorem ssDelete_str (l : List SyncStateR) (k : String) :
    ssDelete l (.str k) = l := by
  unfold ssDelete
  apply List.filter_eq_self.mpr
  intro e _
  simp [ssKey]

/-- After `markDirty`, a dirty marker for the entity is present — the
existing-row branch's `update(existing.id, …)` is a no-op (string key
against the compound primary key), but in every state the helpers can
produce, the existing row is already dirty. -/
theorem markDirty_marker (db : DB) (ty eid : String)
    (hwf : ∀ s ∈ db.syncState, s.is_dirty = true) :
    dirtyMarker (markDirty db ty eid) ty eid := by
  unfold markDirty dirtyMarker
  cases hfind : db.syncState.find? (fun s => s.entity_type = ty ∧ s.entity_id = eid) with
  | none =>
    refine ⟨{ id := ty ++ "_" ++ eid, entity_type := ty, entity_id := eid
              is_dirty := true, last_synced_at := none, sync_error := none },
      ?_, rfl, rfl, rfl⟩
    simp
  | some ex =>
    have hex : ex ∈ db.syncState := List.mem_of_find?_eq_some hfind
    have hprop := List.find?_some hfind
    simp only [decide_eq_true_eq] at hprop
    refine ⟨ex, ?_, hprop.1, hprop.2, hwf ex hex⟩
    simp only [ssUpdate, List.mem_map]
    exact ⟨ex, hex, by simp [ssKey]⟩

/-- C8: `getHighlightsByDocument` returns exactly the highlights of the
document, sorted ascending by `created_at`; two back-to-back
`persistHighlight` requests (the coordinator handles one store mutation to
completion before the next) both succeed with their fresh ids, and both
rows appear, in creation-time order, in a subsequent query — no lost
writes. -/
theorem getHighlights_ordered_no_lost_writes
    (db : DB) (d id1 id2 t1 t2 : String) (h1 h2 : HighlightFields)
    (hd1 : h1.document_id = d) (hd2 : h2.document_id = d)
    (hf1 : ∀ x ∈ db.highlights, x.id ≠ id1)
    (hf2 : ∀ x ∈ db.highlights, x.id ≠ id2) (h12 : id1 ≠ id2) :
    ∃ db1 db2,
      highlightCreate db id1 t1 h1 = .ok (id1, db1) ∧
      highlightCreate db1 id2 t2 h2 = .ok (id2, db2) ∧
      (∃ r ∈ getHighlightsByDocumentR db2 d, r.id = id1 ∧ r.created_at = t1) ∧
      (∃ r ∈ getHighlightsByDocumentR db2 d, r.id = id2 ∧ r.created_at = t2) ∧
      List.Sorted (fun a b : HighlightR => a.created_at ≤ b.created_at)
        (getHighlightsByDocumentR db2 d) ∧
      (∀ x : HighlightR, x ∈ getHighlightsByDocumentR db2 d ↔
        x ∈ db2.highlights ∧ x.document_id = d) := by
  have hany1 : db.highlights.any (fun x => x.id = id1) = false := by
    simp only [List.any_eq_false, decide_eq_true_eq]
    exact hf1
  set row1 : HighlightR :=
    { id := id1, document_id := h1.document_id, anchor := h1.anchor
      quote_text := h1.quote_text, color := h1.color, created_at := t1 } with hrow1
  set db1 := markDirty { db with highlights := db.highlights ++ [row1] }
    "highlight" id1 with hdb1
  have hh1 : db1.highlights = db.highlights ++ [row1] := by
    rw [hdb1, markDirty_highlights]
  have hany2 : db1.highlights.any (fun x => x.id = id2) = false := by
    simp only [List.any_eq_false, decide_eq_true_eq, hh1, List.mem_append]
    rintro x (hx | hx)
    · exact hf2 x hx
    · simp only [List.mem_singleton] at hx
      subst hx
      simpa [hrow1] using h12
  set row2 : HighlightR :=
    { id := id2, document_id := h2.document_id, anchor := h2.anchor
      quote_text := h2.quote_text, color := h2.color, created_at := t2 } with hrow2
  set db2 := markDirty { db1 with highlights := db1.highlights ++ [row2] }
    "highlight" id2 with hdb2
  have hh2 : db2.highlights = db.highlights ++ [row1] ++ [row2] := by
    rw [hdb2, markDirty_highlights]; simp [hh1]
  refine ⟨db1, db2, ?_, ?_, ?_, ?_, ?_, ?_⟩
  · unfold highlightCreate
    rw [hany1]
    rfl
  · unfold highlightCreate
    rw [hany2]
    rfl
  · refine ⟨row1, ?_, rfl, rfl⟩
    simp only [getHighlightsByDocumentR, List.mem_insertionSort, List.mem_filter,
      hh2, List.mem_append, decide_eq_true_eq]
    exact ⟨Or.inl (Or.inr (by simp)), by simp [hrow1, hd1]⟩
  · refine ⟨row2, ?_, rfl, rfl⟩
    simp only [getHighlightsByDocumentR, List.mem_insertionSort, List.mem_filter,
      hh2, List.mem_append, decide_eq_true_eq]
    exact ⟨Or.inr (by simp), by simp [hrow2, hd2]⟩
  · haveI : IsTotal HighlightR (fun a b => a.created_at ≤ b.created_at) :=
      ⟨fun a b => le_total a.created_at b.created_at⟩
    haveI : IsTrans HighlightR (fun a b => a.created_at ≤ b.created_at) :=
      ⟨fun a b c hab hbc => le_trans hab hbc⟩
    exact List.sorted_insertionSort _ _
  · intro x
    simp [getHighlightsByDocumentR, List.mem_insertionSort, List.mem_filter]

/-- C8 (witness): the theorem applied to an empty store and two concrete
persists. -/
theorem getHighlights_ordered_no_lost_writes_witness :
    ∃ db1 db2,
      highlightCreate {} "ha" "2024-01-02T00:00:00Z" witHFields = .ok ("ha", db1) ∧
      highlightCreate db1 "hb" "2024-01-02T00:00:01Z" witHFields = .ok ("hb", db2) ∧
      (∃ r ∈ getHighlightsByDocumentR db2 "d1",
          r.id = "ha" ∧ r.created_at = "2024-01-02T00:00:00Z") ∧
      (∃ r ∈ getHighlightsByDocumentR db2 "d1",
          r.id = "hb" ∧ r.created_at = "2024-01-02T00:00:01Z") ∧
      List.Sorted (fun a b : HighlightR => a.created_at ≤ b.created_at)
        (getHighlightsByDocumentR db2 "d1") ∧
      (∀ x : HighlightR, x ∈ getHighlightsByDocumentR db2 "d1" ↔
        x ∈ db2.highlights ∧ x.document_id = "d1") :=
  getHighlights_ordered_no_lost_writes {} "d1" "ha" "hb"
    "2024-01-02T00:00:00Z" "2024-01-02T00:00:01Z" witHFields witHFields
    rfl rfl (by simp) (by simp) (by decide)

/-- C9: after every create, update or delete performed through the store
helpers, the sync-state table contains a dirty marker keyed by
`(entityKind, entityId)` for the mutated entity.  Creates add the marker;
updates find it already present (and dirty, in every helper-reachable
state); deletes *attempt* to remove it with
`db.syncState.delete('<kind>_<id>')`, but that string key never matches the
table's compound primary key `[entity_type+entity_id]`, so the marker laid
down at creation time survives the delete. -/
theorem mutations_marker_present
    (db : DB) (genId now : String)
    (hwf : ∀ s ∈ db.syncState, s.is_dirty = true) :
    (∀ (h : HighlightFields) (id1 : String) (db' : DB),
      highlightCreate db genId now h = .ok (id1, db') →
        dirtyMarker db' "highlight" id1) ∧
    (∀ (n : NoteFields) (id1 : String) (db' : DB),
      noteCreate db genId now n = .ok (id1, db') →
        dirtyMarker db' "note" id1) ∧
    (∀ (dfs : DocumentFields) (id1 : String) (db' : DB),
      documentCreate db genId now dfs = .ok (id1, db') →
        dirtyMarker db' "document" id1) ∧
    (∀ (hid : String) (f : HighlightR → HighlightR),
      dirtyMarker (highlightUpdate db hid f) "highlight" hid) ∧
    (∀ (nid : String) (f : NoteR → NoteR),
      dirtyMarker (noteUpdate db nid now f) "note" nid) ∧
    (∀ (did : String) (f : DocumentR → DocumentR),
      dirtyMarker (documentUpdate db did now f) "document" did) ∧
    (∀ hid : String, dirtyMarker db "highlight" hid →
      dirtyMarker (highlightDelete db hid) "highlight" hid) ∧
    (∀ nid : String, dirtyMarker db "note" nid →
      dirtyMarker (noteDelete db nid) "note" nid) ∧
    (∀ did : String, dirtyMarker db "document" did →
      dirtyMarker (documentDelete db did) "document" did) := by
  refine ⟨?_, ?_, ?_, ?_, ?_, ?_, ?_, ?_, ?_⟩
  · intro h id1 db' hc
    unfold highlightCreate at hc
    split at hc
    · cases hc
    · cases hc
      exact markDirty_marker _ _ _ hwf
  · intro n id1 db' hc
    unfold noteCreate at hc
    split at hc
    · cases hc
    · cases hc
      exact markDirty_marker _ _ _ hwf
  · intro dfs id1 db' hc
    unfold documentCreate at hc
    split at hc
    · cases hc
    · cases hc
      exact markDirty_marker _ _ _ hwf
  · intro hid f
    exact markDirty_marker _ _ _ hwf
  · intro nid f
    exact markDirty_marker _ _ _ hwf
  · intro did f
    exact markDirty_marker _ _ _ hwf
  · intro hid hm
    rcases hm with ⟨s, hs, h1, h2, h3⟩
    exact ⟨s, by simp [highlightDelete, ssDelete_str, hs], h1, h2, h3⟩
  · intro nid hm
    rcases hm with ⟨s, hs, h1, h2, h3⟩
    exact ⟨s, by simp [noteDelete, ssDelete_str, hs], h1, h2, h3⟩
  · intro did hm
    rcases hm with ⟨s, hs, h1, h2, h3⟩
    exact ⟨s, by simp [documentDelete, ssDelete_str, hs], h1, h2, h3⟩

/-- C9 (witness): the theorem at a store holding one dirty-marked
highlight: the marker survives both an update and the delete. -/
theorem mutations_marker_present_witness :
    dirtyMarker (highlightUpdate witDB "h1" id) "highlight" "h1" ∧
    dirtyMarker (highlightDelete witDB "h1") "highlight" "h1" :=
  ⟨(mutations_marker_present witDB "g" "now" (by decide)).2.2.2.1 "h1" id,
   (mutations_marker_present witDB "g" "now" (by decide)).2.2.2.2.2.2.1 "h1"
     (by decide)⟩

/-- C10 (witness): the theorem's mouse-path conjuncts applied to a
two-character selection on both surfaces. -/
theorem mouse_min_three_keyboard_unbounded_witness :
    handleTextSelection false (some ⟨false, "ab".toList⟩) false = false ∧
    pdfHandleMouseUp false (some ⟨false, "ab".toList⟩) false = false :=
  ⟨mouse_min_three_keyboard_unbounded.1 false ⟨false, "ab".toList⟩ false
     (by decide),
   mouse_min_three_keyboard_unbounded.2.1 false ⟨false, "ab".toList⟩ false
     (by decide)⟩

/-! ## Support lemmas for the codec theorems -/

/-- `strip` is leading-trim followed by Mathlib's trailing-trim. -/
theorem strip_eq_rdropWhile (l : Str) :
    strip l =
      List.rdropWhile Char.isWhitespace (l.dropWhile Char.isWhitespace) := rfl

/-- Stripping is idempotent. -/
theorem strip_strip (l : Str) : strip (strip l) = strip l := by
  rw [strip_eq_rdropWhile, strip_eq_rdropWhile]
  have h1 : (List.rdropWhile Char.isWhitespace
        (l.dropWhile Char.isWhitespace)).dropWhile Char.isWhitespace =
      List.rdropWhile Char.isWhitespace (l.dropWhile Char.isWhitespace) := by
    rw [List.dropWhile_eq_self_iff]
    set x := List.rdropWhile Char.isWhitespace (l.dropWhile Char.isWhitespace)
      with hx
    intro hl
    obtain ⟨t, ht⟩ : x <+: l.dropWhile Char.isWhitespace :=
      List.rdropWhile_prefix _ _
    have hlen : 0 < (l.dropWhile Char.isWhitespace).length := by
      rw [← ht, List.length_append]
      omega
    have hget := List.dropWhile_get_zero_not Char.isWhitespace l hlen
    have e3 : (List.dropWhile Char.isWhitespace l)[0]? = x[0]? := by
      conv_lhs => rw [← ht]
      exact List.getElem?_append_left hl
    have e1 : (List.dropWhile Char.isWhitespace l)[0]? =
        some ((l.dropWhile Char.isWhitespace).get ⟨0, hlen⟩) := by
      simp [List.get_eq_getElem, List.getElem?_eq_getElem hlen]
    have e2 : x[0]? = some (x.get ⟨0, hl⟩) := by
      simp [List.get_eq_getElem, List.getElem?_eq_getElem hl]
    have heq : (l.dropWhile Char.isWhitespace).get ⟨0, hlen⟩ =
        x.get ⟨0, hl⟩ :=
      Option.some.inj (e1.symm.trans (e3.trans e2))
    rwa [heq] at hget
  rw [h1, List.rdropWhile_idempotent]

/-- Stripping the empty list gives the empty list, so a list with a
non-empty strip is non-empty. -/
theorem ne_nil_of_strip_ne_nil {l : Str} (h : strip l ≠ []) : l ≠ [] := by
  intro he
  subst he
  exact h rfl

/-- `lexLt` is irreflexive. -/
theorem lexLt_irrefl (l : List Nat) : lexLt l l = false := by
  induction l with
  | nil => rfl
  | cons a as ih => simp [lexLt, ih]

/-- `lexLt` is asymmetric. -/
theorem lexLt_asymm : ∀ {a b : List Nat}, lexLt a b = true → lexLt b a = false
  | [], [], h => by simp [lexLt] at h
  | [], _ :: _, _ => rfl
  | _ :: _, [], h => by simp [lexLt] at h
  | a :: as, b :: bs, h => by
    simp only [lexLt, Bool.or_eq_true, Bool.and_eq_true, decide_eq_true_eq,
      beq_iff_eq] at h ⊢
    rcases h with h | ⟨rfl, h⟩
    · simp [Nat.not_lt.mpr (Nat.le_of_lt h), Nat.ne_of_gt h]
    · simp [lexLt_asymm h]

/-- Appending a single element on both sides of a shared path reduces
`lexLt` to the comparison of the appended elements. -/
theorem lexLt_append_single (p : List Nat) (a b : Nat) :
    lexLt (p ++ [a]) (p ++ [b]) = decide (a < b) := by
  induction p with
  | nil => simp [lexLt]
  | cons i rest ih => simp [lexLt, ih]

/-- Consing the same index preserves `keyLtAll`. -/
theorem keyLtAll_cons {p q : List Nat} (i : Nat) (h : keyLtAll p q) :
    keyLtAll (i :: p) (i :: q) := by
  intro xs ys
  simpa [lexLt] using h xs ys

/-- Paths with strictly increasing heads are ordered however extended. -/
theorem keyLtAll_head {i j : Nat} (h : i < j) (p q : List Nat) :
    keyLtAll (i :: p) (j :: q) := by
  intro xs ys
  simp [lexLt, h]

/-- `keyLtAll` is irreflexive. -/
theorem keyLtAll_irrefl (p : List Nat) : ¬ keyLtAll p p := by
  intro h
  have := h [] []
  simp [lexLt_irrefl] at this

/-- Membership in the child-list node enumeration. -/
theorem nodesPreList_mem {cs : List DomNode} {k : Nat} {q : Path} {m : DomNode} :
    (q, m) ∈ nodesPreList cs k ↔
      ∃ j c q', q = (k + j) :: q' ∧ cs[j]? = some c ∧ (q', m) ∈ nodesPre c := by
  induction cs generalizing k with
  | nil => simp [nodesPreList]
  | cons c rest ih =>
    simp only [nodesPreList, List.mem_append, List.mem_map, ih]
    constructor
    · rintro (⟨⟨q', m'⟩, hmem, heq⟩ | ⟨j, c', q', hq, hj, hmem⟩)
      · cases heq
        exact ⟨0, c, q', by simp, by simp, hmem⟩
      · refine ⟨j + 1, c', q', ?_, by simpa using hj, hmem⟩
        rw [hq]
        congr 1
        omega
    · rintro ⟨j, c', q', hq, hj, hmem⟩
      cases j with
      | zero =>
        left
        have hc : c = c' := by simpa using hj
        subst hc
        exact ⟨(q', m), hmem, by simp [hq]⟩
      | succ j' =>
        right
        refine ⟨j', c', q', ?_, by simpa using hj, hmem⟩
        rw [hq]
        congr 1
        omega

/-- Pre-order enumeration hits exactly the nodes `nodeAt` can address. -/
theorem nodesPre_mem {p : Path} {m : DomNode} :
    ∀ {n : DomNode}, (p, m) ∈ nodesPre n ↔ nodeAt n p = some m := by
  induction p with
  | nil =>
    intro n
    cases n with
    | text s =>
      simp only [nodesPre, List.mem_singleton, nodeAt, Option.some.injEq,
        Prod.mk.injEq, true_and]
      exact ⟨fun h => by rw [h], fun h => by rw [h]⟩
    | elem tg at_ cs =>
      simp only [nodesPre, List.mem_cons, nodeAt, Option.some.injEq,
        Prod.mk.injEq, true_and, nodesPreList_mem]
      constructor
      · rintro (h | ⟨j, c, q', hq, _, _⟩)
        · rw [h]
        · cases hq
      · intro h
        exact Or.inl (by rw [h])
  | cons i p' ih =>
    intro n
    cases n with
    | text s =>
      simp [nodesPre, nodeAt]
    | elem tg at_ cs =>
      simp only [nodesPre, List.mem_cons, Prod.mk.injEq, nodesPreList_mem]
      constructor
      · rintro (⟨h, _⟩ | ⟨j, c, q', hq, hj, hmem⟩)
        · cases h
        · obtain ⟨hij, hq'⟩ : i = 0 + j ∧ p' = q' := by
            constructor <;> [exact (List.cons.injEq .. ▸ hq).1;
              exact (List.cons.injEq .. ▸ hq).2]
          subst hq'
          have : i = j := by omega
          subst this
          simp only [nodeAt, hj]
          exact ih.mp hmem
      · intro h
        simp only [nodeAt] at h
        cases hj : cs[i]? with
        | none => rw [hj] at h; cases h
        | some c =>
          rw [hj] at h
          exact Or.inr ⟨i, c, p', by simp, hj, ih.mpr h⟩

/-- The leaves of a text node. -/
theorem leaves_text (s : Str) : leaves (.text s) = [([], s)] := rfl

/-- The leaf list of an element decomposes child block by child block. -/
theorem leaves_elem (tg : String) (at_ : List (String × String))
    (cs : List DomNode) : leaves (.elem tg at_ cs) = leavesOfList cs 0 := by
  have key : ∀ (cs' : List DomNode) (k : Nat),
      (nodesPreList cs' k).filterMap (fun q =>
        match q.2 with
        | .text s => some (q.1, s)
        | .elem _ _ _ => none) = leavesOfList cs' k := by
    intro cs'
    induction cs' with
    | nil => intro k; rfl
    | cons c rest ih =>
      intro k
      simp only [nodesPreList, leavesOfList, List.filterMap_append, ih]
      congr 1
      rw [List.filterMap_map]
      have : ∀ q : Path × DomNode,
          ((fun q : Path × DomNode =>
            match q.2 with
            | .text s => some (q.1, s)
            | .elem _ _ _ => none) ∘ fun q => (k :: q.1, q.2)) q =
          (Option.map (fun q : Path × Str => (k :: q.1, q.2)))
            (match q.2 with
             | .text s => some (q.1, s)
             | .elem _ _ _ => none) := by
        rintro ⟨qp, qm⟩
        cases qm <;> rfl
      rw [List.filterMap_congr (fun x _ => this x)]
      rw [← List.map_filterMap]
      rfl
  unfold leaves
  simp only [nodesPre, List.filterMap_cons]
  exact key cs 0

/-- Leaves are exactly the addressable text nodes. -/
theorem leaves_mem {n : DomNode} {p : Path} {s : Str} :
    (p, s) ∈ leaves n ↔ nodeAt n p = some (.text s) := by
  unfold leaves
  rw [List.mem_filterMap]
  constructor
  · rintro ⟨⟨q, m⟩, hmem, hf⟩
    cases m with
    | text s' =>
      simp only [Option.some.injEq, Prod.mk.injEq] at hf
      obtain ⟨rfl, rfl⟩ := hf
      exact nodesPre_mem.mp hmem
    | elem _ _ _ => cases hf
  · intro h
    exact ⟨(p, .text s), nodesPre_mem.mpr h, rfl⟩

/-- `leafTotal` distributes over append. -/
theorem leafTotal_append (L1 L2 : List (Path × Str)) :
    leafTotal (L1 ++ L2) = leafTotal L1 + leafTotal L2 := by
  simp [leafTotal]

/-- Re-rooting the paths does not change the character count. -/
theorem leafTotal_map_shift (L : List (Path × Str)) (i : Nat) :
    leafTotal (L.map (fun q => (i :: q.1, q.2))) = leafTotal L := by
  unfold leafTotal
  rw [List.map_map]
  rfl

/-- The full text of a text node is its character data. -/
theorem fullText_text (s : Str) : fullText (.text s) = s := by
  simp [fullText, leaves_text]

/-- The character count of the leaf list is the full text's length. -/
theorem leafTotal_leaves (n : DomNode) :
    leafTotal (leaves n) = (fullText n).length := by
  unfold leafTotal fullText
  rw [List.length_flatten, List.map_map]
  rfl

/-- `textLen` as a leaf-list count. -/
theorem textLen_eq_leafTotal (n : DomNode) :
    textLen n = leafTotal (leaves n) := by
  rw [textLen, leafTotal_leaves]

/-- Character count of a child-list leaf enumeration. -/
theorem leafTotal_leavesOfList (cs : List DomNode) (k : Nat) :
    leafTotal (leavesOfList cs k) = (cs.map textLen).sum := by
  induction cs generalizing k with
  | nil => rfl
  | cons c rest ih =>
    simp only [leavesOfList, leafTotal_append, leafTotal_map_shift, List.map_cons,
      List.sum_cons, ih, ← textLen_eq_leafTotal]

/-- The text length of an element is the sum over its children. -/
theorem textLen_elem (tg : String) (at_ : List (String × String))
    (cs : List DomNode) :
    textLen (.elem tg at_ cs) = (cs.map textLen).sum := by
  rw [textLen_eq_leafTotal, leaves_elem, leafTotal_leavesOfList]

/-- The children before an index contribute at most the whole element. -/
theorem childrenTextLen_le (cs : List DomNode) (k : Nat) :
    childrenTextLen cs k ≤ (cs.map textLen).sum := by
  unfold childrenTextLen
  conv_rhs => rw [← List.take_append_drop k cs]
  rw [List.map_append, List.sum_append]
  omega

/-- One more child extends the cumulative length by that child. -/
theorem childrenTextLen_succ (cs : List DomNode) (i : Nat) (c : DomNode)
    (h : cs[i]? = some c) :
    childrenTextLen cs (i + 1) = childrenTextLen cs i + textLen c := by
  unfold childrenTextLen
  rw [List.take_succ, h]
  simp

/-- `cumUpTo` looks only at the first block when the key is in it. -/
theorem cumUpTo_append_of_mem {L1 : List (Path × Str)} {p : Path}
    (L2 : List (Path × Str)) (h : p ∈ L1.map Prod.fst) :
    cumUpTo (L1 ++ L2) p = cumUpTo L1 p := by
  induction L1 with
  | nil => simp at h
  | cons a rest ih =>
    obtain ⟨q, s⟩ := a
    simp only [List.map_cons, List.mem_cons] at h
    by_cases hq : q = p
    · simp [cumUpTo, hq]
    · have : p ∈ rest.map Prod.fst := by
        rcases h with h | h
        · exact absurd h.symm hq
        · exact h
      simp [cumUpTo, hq, ih this]

/-- `cumUpTo` skips a whole block that does not contain the key. -/
theorem cumUpTo_append_of_not_mem {L1 : List (Path × Str)} {p : Path}
    (L2 : List (Path × Str)) (h : p ∉ L1.map Prod.fst) :
    cumUpTo (L1 ++ L2) p = leafTotal L1 + cumUpTo L2 p := by
  induction L1 with
  | nil => simp [leafTotal]
  | cons a rest ih =>
    obtain ⟨q, s⟩ := a
    simp only [List.map_cons, List.mem_cons] at h
    push_neg at h
    have hq : q ≠ p := fun he => h.1 he.symm
    show (if q = p then 0 else s.length + cumUpTo (rest ++ L2) p) = _
    rw [if_neg hq, ih h.2]
    simp only [leafTotal, List.map_cons, List.sum_cons]
    omega

/-- Re-rooting the paths shifts the key accordingly. -/
theorem cumUpTo_map_shift (L : List (Path × Str)) (i : Nat) (p : Path) :
    cumUpTo (L.map (fun q => (i :: q.1, q.2))) (i :: p) = cumUpTo L p := by
  induction L with
  | nil => rfl
  | cons a rest ih =>
    obtain ⟨q, s⟩ := a
    by_cases hq : q = p
    · simp [cumUpTo, hq]
    · have : ¬ (i :: q = i :: p) := by simp [hq]
      simp [cumUpTo, hq, this, ih]

/-- The `getTextOffset` walk, when the node is visited, accumulates the
text before it plus the intra-node offset. -/
theorem gtoAux_of_mem {L : List (Path × Str)} {p : Path}
    (cur off : Nat) (h : p ∈ L.map Prod.fst) :
    gtoAux L cur p off = cur + cumUpTo L p + off := by
  induction L generalizing cur with
  | nil => simp at h
  | cons a rest ih =>
    obtain ⟨q, s⟩ := a
    by_cases hq : q = p
    · simp [gtoAux, cumUpTo, hq]
    · simp only [List.map_cons, List.mem_cons] at h
      have hmem : p ∈ rest.map Prod.fst := by
        rcases h with h | h
        · exact absurd h.symm hq
        · exact h
      simp only [gtoAux, cumUpTo, hq, if_false, ih _ hmem]
      omega

/-- The `getTextOffset` walk returns the total length for a node that is
never visited. -/
theorem gtoAux_of_not_mem {L : List (Path × Str)} {p : Path}
    (cur off : Nat) (h : p ∉ L.map Prod.fst) :
    gtoAux L cur p off = cur + leafTotal L := by
  induction L generalizing cur with
  | nil => simp [gtoAux, leafTotal]
  | cons a rest ih =>
    obtain ⟨q, s⟩ := a
    simp only [List.map_cons, List.mem_cons] at h
    push_neg at h
    have hq : q ≠ p := fun he => h.1 he.symm
    simp only [gtoAux, hq, if_false, ih _ h.2, leafTotal, List.map_cons,
      List.sum_cons]
    omega

/-- Position of a leaf key inside a child-list leaf enumeration. -/
theorem cumUpTo_leavesOfList (cs : List DomNode) (k j : Nat) (c : DomNode)
    (p' : Path) (hj : cs[j]? = some c) (hp : p' ∈ (leaves c).map Prod.fst) :
    cumUpTo (leavesOfList cs k) ((k + j) :: p') =
      childrenTextLen cs j + cumUpTo (leaves c) p' := by
  induction cs generalizing k j with
  | nil => simp at hj
  | cons c0 rest ih =>
    cases j with
    | zero =>
      have hc : c0 = c := by simpa using hj
      subst hc
      have hmem : (k + 0) :: p' ∈
          ((leaves c0).map (fun q => (k :: q.1, q.2))).map Prod.fst := by
        simp only [List.map_map]
        rcases List.mem_map.mp hp with ⟨⟨qq, ss⟩, hq, hq2⟩
        have hqq : qq = p' := hq2
        subst hqq
        exact List.mem_map.mpr ⟨(qq, ss), hq, by simp⟩
      rw [leavesOfList, cumUpTo_append_of_mem _ hmem]
      have : k + 0 = k := by omega
      rw [this, cumUpTo_map_shift]
      simp [childrenTextLen]
    | succ j' =>
      have hnot : (k + (j' + 1)) :: p' ∉
          ((leaves c0).map (fun q => (k :: q.1, q.2))).map Prod.fst := by
        intro hmem
        simp only [List.map_map, List.mem_map] at hmem
        rcases hmem with ⟨⟨qq, ss⟩, _, hq2⟩
        simp only [Function.comp] at hq2
        have : k = k + (j' + 1) := (List.cons.injEq .. ▸ hq2).1
        omega
      rw [leavesOfList, cumUpTo_append_of_not_mem _ hnot]
      have harith : k + (j' + 1) = (k + 1) + j' := by omega
      rw [harith, ih (k + 1) j' (by simpa using hj)]
      rw [leafTotal_map_shift, ← textLen_eq_leafTotal]
      have : childrenTextLen (c0 :: rest) (j' + 1) =
          textLen c0 + childrenTextLen rest j' := by
        simp [childrenTextLen]
      omega

/-- The absolute position of a boundary point in a text leaf is the text
before the leaf plus the intra-leaf offset. -/
theorem absPos_leaf {t : DomNode} {p : Path} {s : Str} {off : Nat}
    (h : nodeAt t p = some (.text s)) (hoff : off ≤ s.length) :
    absPos t p off = cumUpTo (leaves t) p + off := by
  induction p generalizing t with
  | nil =>
    cases t with
    | text s' =>
      have : s' = s := by simpa [nodeAt] using h
      subst this
      simp [absPos, leaves_text, cumUpTo, Nat.min_eq_left hoff]
    | elem tg at_ cs => simp [nodeAt] at h
  | cons i p' ih =>
    cases t with
    | text s' => simp [nodeAt] at h
    | elem tg at_ cs =>
      simp only [nodeAt] at h
      cases hj : cs[i]? with
      | none => rw [hj] at h; cases h
      | some c =>
        rw [hj] at h
        have hrec := ih h
        have hp : p' ∈ (leaves c).map Prod.fst := by
          rcases leaves_mem.mpr h with hm
          exact List.mem_map.mpr ⟨(p', s), hm, rfl⟩
        have hcum := cumUpTo_leavesOfList cs 0 i c p' hj hp
        simp only [Nat.zero_add] at hcum
        have hstep : absPos (DomNode.elem tg at_ cs) (i :: p') off =
            childrenTextLen cs i + absPos c p' off := by
          simp [absPos, hj]
        rw [hstep, hrec, leaves_elem, hcum]
        omega

/-- Every absolute position is within the full text. -/
theorem absPos_le (t : DomNode) (p : Path) (off : Nat) :
    absPos t p off ≤ (fullText t).length := by
  induction p generalizing t with
  | nil =>
    cases t with
    | text s => simp [absPos, fullText_text, Nat.min_le_right]
    | elem tg at_ cs =>
      have h1 := childrenTextLen_le cs off
      have h2 : (fullText (DomNode.elem tg at_ cs)).length =
          (cs.map textLen).sum := textLen_elem tg at_ cs
      simp only [absPos]
      omega
  | cons i p' ih =>
    cases t with
    | text s => simp [absPos]
    | elem tg at_ cs =>
      have h2 : (fullText (DomNode.elem tg at_ cs)).length =
          (cs.map textLen).sum := textLen_elem tg at_ cs
      cases hj : cs[i]? with
      | none =>
        have h1 := childrenTextLen_le cs i
        simp only [absPos, hj]
        omega
      | some c =>
        have h3 := childrenTextLen_succ cs i c hj
        have h4 := childrenTextLen_le cs (i + 1)
        have h5 : absPos c p' off ≤ textLen c := ih (t := c)
        have hstep : absPos (DomNode.elem tg at_ cs) (i :: p') off =
            childrenTextLen cs i + absPos c p' off := by
          simp [absPos, hj]
        rw [hstep]
        omega

/-- `getTextOffset` agrees with the absolute position at a text-leaf
boundary. -/
theorem getTextOffset_leaf {t : DomNode} {p : Path} {s : Str} {off : Nat}
    (h : nodeAt t p = some (.text s)) (hoff : off ≤ s.length) :
    getTextOffset t p off = absPos t p off := by
  have hp : p ∈ (leaves t).map Prod.fst :=
    List.mem_map.mpr ⟨(p, s), leaves_mem.mpr h, rfl⟩
  rw [getTextOffset, gtoAux_of_mem 0 off hp, absPos_leaf h hoff]
  omega

/-- Every leaf of a child-list enumeration starting at `k` sits below some
child `k + j`. -/
theorem leavesOfList_shape {cs : List DomNode} {k : Nat} {q : Path × Str}
    (h : q ∈ leavesOfList cs k) : ∃ j p', q.1 = (k + j) :: p' := by
  induction cs generalizing k with
  | nil => simp [leavesOfList] at h
  | cons c rest ih =>
    simp only [leavesOfList, List.mem_append, List.mem_map] at h
    rcases h with ⟨a, _, rfl⟩ | h
    · exact ⟨0, a.1, by simp⟩
    · obtain ⟨j, p', hq⟩ := ih h
      exact ⟨j + 1, p', by rw [hq]; congr 1; omega⟩

/-- Blockwise document order: if each child's leaf list is ordered, so is
the concatenation over the child list. -/
theorem leavesOfList_pairwise (cs : List DomNode) (k : Nat)
    (hc : ∀ c ∈ cs,
      List.Pairwise (fun a b : Path × Str => keyLtAll a.1 b.1) (leaves c)) :
    List.Pairwise (fun a b : Path × Str => keyLtAll a.1 b.1)
      (leavesOfList cs k) := by
  induction cs generalizing k with
  | nil => exact List.Pairwise.nil
  | cons c rest ih =>
    rw [leavesOfList, List.pairwise_append]
    refine ⟨?_, ih (k + 1) (fun c' hc' => hc c' (List.mem_cons_of_mem c hc')), ?_⟩
    · rw [List.pairwise_map]
      exact (hc c (List.mem_cons_self c rest)).imp
        (fun h => keyLtAll_cons k h)
    · intro a ha b hb
      obtain ⟨⟨qa, sa⟩, _, rfl⟩ := List.mem_map.mp ha
      obtain ⟨j, p', hq⟩ := leavesOfList_shape hb
      rw [hq]
      exact keyLtAll_head (by omega) _ _

/-- The pre-order enumeration is never empty. -/
theorem nodesPre_length_pos (n : DomNode) : 0 < (nodesPre n).length := by
  cases n <;> simp [nodesPre]

/-- Length of the child-list enumeration. -/
theorem nodesPreList_length (cs : List DomNode) (k : Nat) :
    (nodesPreList cs k).length =
      (cs.map (fun c => (nodesPre c).length)).sum := by
  induction cs generalizing k with
  | nil => rfl
  | cons c rest ih => simp [nodesPreList, ih]

/-- A child's enumeration is strictly shorter than its parent's. -/
theorem nodesPre_child_lt {c : DomNode} {cs : List DomNode} (hc : c ∈ cs)
    (tg : String) (at_ : List (String × String)) :
    (nodesPre c).length < (nodesPre (.elem tg at_ cs)).length := by
  have h1 : (nodesPre c).length ∈ cs.map (fun c => (nodesPre c).length) :=
    List.mem_map.mpr ⟨c, hc, rfl⟩
  have h2 := List.single_le_sum (fun (x : Nat) _ => Nat.zero_le x) _ h1
  simp only [nodesPre, List.length_cons, nodesPreList_length]
  omega

/-- The leaves of any tree are pairwise in strict document order. -/
theorem leaves_pairwise (n : DomNode) :
    List.Pairwise (fun a b : Path × Str => keyLtAll a.1 b.1) (leaves n) := by
  suffices H : ∀ (N : Nat) (m : DomNode), (nodesPre m).length ≤ N →
      List.Pairwise (fun a b : Path × Str => keyLtAll a.1 b.1) (leaves m) from
    H (nodesPre n).length n le_rfl
  intro N
  induction N with
  | zero =>
    intro m hm
    have := nodesPre_length_pos m
    omega
  | succ N ih =>
    intro m hm
    cases m with
    | text s => simp [leaves_text]
    | elem tg at_ cs =>
      rw [leaves_elem]
      refine leavesOfList_pairwise cs 0 (fun c hc => ih c ?_)
      have := nodesPre_child_lt hc tg at_
      omega

/-- `setStart`/`setEnd` succeed without collapsing on two ordered text-leaf
boundary points with in-bounds offsets. -/
theorem mkRangeI_leaves (t : DomNode) (p1 p2 : Path) (s1 s2 : Str)
    (o1 o2 : Nat)
    (h1 : nodeAt t p1 = some (.text s1)) (h2 : nodeAt t p2 = some (.text s2))
    (ho1 : o1 ≤ s1.length) (ho2 : o2 ≤ s2.length)
    (horder : (p1 = p2 ∧ o1 ≤ o2) ∨ keyLtAll p1 p2) :
    mkRangeI t p1 (o1 : Int) p2 (o2 : Int) = .ok ⟨p1, o1, p2, o2⟩ := by
  have hn1 : ¬ ((o1 : Int) < 0) := by omega
  have hn2 : ¬ ((o2 : Int) < 0) := by omega
  have ht1 : ((o1 : Int)).toNat = o1 := Int.toNat_natCast o1
  have ht2 : ((o2 : Int)).toNat = o2 := Int.toNat_natCast o2
  have hfalse : lexLt (boundaryKey p2 o2) (boundaryKey p1 o1) = false := by
    rcases horder with ⟨rfl, hle⟩ | hlt
    · rw [boundaryKey, boundaryKey, lexLt_append_single]
      simp
      omega
    · exact lexLt_asymm (hlt [o1] [o2])
  simp only [mkRangeI, validBoundary, hn1, hn2, if_false, h1, h2, ht1, ht2,
    if_pos ho1, if_pos ho2, hfalse, Bool.false_eq_true]

/-- The characters before a leaf at a known split of the leaf list. -/
theorem cumUpTo_at_suffix (t : DomNode) (done rest : List (Path × Str))
    (q : Path) (sq : Str) (hsplit : leaves t = done ++ (q, sq) :: rest) :
    cumUpTo (leaves t) q = leafTotal done := by
  have hpw := leaves_pairwise t
  rw [hsplit] at hpw
  have hnot : q ∉ done.map Prod.fst := by
    intro hmem
    obtain ⟨a, ha, ha2⟩ := List.mem_map.mp hmem
    have := (List.pairwise_append.mp hpw).2.2 a ha (q, sq) (by simp)
    rw [ha2] at this
    exact keyLtAll_irrefl q this
  rw [hsplit, cumUpTo_append_of_not_mem _ hnot]
  simp [cumUpTo]

/-- The offset-replay walk after the start boundary has been located: it
breaks at the leaf containing the end offset and builds the range there. -/
theorem fraLoop_found (t : DomNode) (s e : Nat) (he : e ≤ (fullText t).length)
    (fq : Path) (fo : Nat) (fsq : Str)
    (hfq : nodeAt t fq = some (.text fsq)) (hfo : fo ≤ fsq.length)
    (habs : absPos t fq fo = s) :
    ∀ (todo done : List (Path × Str)), leaves t = done ++ todo →
      leafTotal done < e →
      (∀ x ∈ todo, keyLtAll fq x.1) →
      ∃ r : RangeM,
        fraLoop t todo (leafTotal done) (some (fq, (fo : Int))) s
            ((e : Int) - (s : Int)) = .ok (some r) ∧
        absPos t r.sPath r.sOff = s ∧ absPos t r.ePath r.eOff = e := by
  intro todo
  induction todo with
  | nil =>
    intro done hsplit hcur _
    exfalso
    have htot : leafTotal (leaves t) = (fullText t).length := leafTotal_leaves t
    rw [hsplit, List.append_nil] at htot
    omega
  | cons a rest ih =>
    obtain ⟨q, sq⟩ := a
    intro done hsplit hcur hbefore
    have hqmem : (q, sq) ∈ leaves t := by rw [hsplit]; simp
    have hq := leaves_mem.mp hqmem
    have hcumq : cumUpTo (leaves t) q = leafTotal done :=
      cumUpTo_at_suffix t done rest q sq hsplit
    simp only [fraLoop, Option.isNone_some, Bool.false_eq_true, false_and,
      if_false]
    by_cases hbreak : e ≤ leafTotal done + sq.length
    · rw [if_pos (by omega)]
      set eo := e - leafTotal done with heo
      have hcast : (s : Int) + ((e : Int) - (s : Int)) - (leafTotal done : Int) =
          ((eo : Nat) : Int) := by
        rw [heo]; omega
      rw [hcast]
      have hmk := mkRangeI_leaves t fq q fsq sq fo eo hfq hq hfo
        (by omega) (Or.inr (hbefore (q, sq) (by simp)))
      rw [hmk]
      refine ⟨⟨fq, fo, q, eo⟩, rfl, habs, ?_⟩
      show absPos t q eo = e
      have heo2 : eo ≤ sq.length := by omega
      rw [absPos_leaf hq heo2, hcumq]
      omega
    · rw [if_neg (by omega)]
      have hl1 : leafTotal (done ++ [(q, sq)]) = leafTotal done + sq.length := by
        rw [leafTotal_append]
        simp [leafTotal]
      have hcast : (leafTotal done : Int) + (sq.length : Int) =
          ((leafTotal (done ++ [(q, sq)]) : Nat) : Int) := by
        rw [hl1]
        omega
      rw [hcast]
      exact ih (done ++ [(q, sq)]) (by rw [hsplit]; simp)
        (by rw [hl1]; omega)
        (fun x hx => hbefore x (by simp [hx]))

/-- The offset-replay walk before the start boundary has been located:
for in-range offsets it locates both boundaries and returns a range whose
boundary points sit at exactly the requested absolute positions. -/
theorem fraLoop_seek (t : DomNode) (s e : Nat) (hse : s < e)
    (he : e ≤ (fullText t).length) :
    ∀ (todo done : List (Path × Str)), leaves t = done ++ todo →
      leafTotal done ≤ s →
      ∃ r : RangeM,
        fraLoop t todo (leafTotal done) none s ((e : Int) - (s : Int)) =
          .ok (some r) ∧
        absPos t r.sPath r.sOff = s ∧ absPos t r.ePath r.eOff = e := by
  intro todo
  induction todo with
  | nil =>
    intro done hsplit hcur
    exfalso
    have htot : leafTotal (leaves t) = (fullText t).length := leafTotal_leaves t
    rw [hsplit, List.append_nil] at htot
    omega
  | cons a rest ih =>
    obtain ⟨q, sq⟩ := a
    intro done hsplit hcur
    have hqmem : (q, sq) ∈ leaves t := by rw [hsplit]; simp
    have hq := leaves_mem.mp hqmem
    have hcumq : cumUpTo (leaves t) q = leafTotal done :=
      cumUpTo_at_suffix t done rest q sq hsplit
    have hl1 : leafTotal (done ++ [(q, sq)]) = leafTotal done + sq.length := by
      rw [leafTotal_append]
      simp [leafTotal]
    simp only [fraLoop, Option.isNone_none, true_and]
    by_cases hstart : s < leafTotal done + sq.length
    · have hc1 : ((leafTotal done : Int) + (sq.length : Int) > (s : Int)) =
          True := eq_true (by omega)
      simp only [hc1, if_true]
      set fo := s - leafTotal done with hfo
      have hcast : (s : Int) - (leafTotal done : Int) = ((fo : Nat) : Int) := by
        rw [hfo]; omega
      rw [hcast]
      have habs : absPos t q fo = s := by
        rw [absPos_leaf hq (by omega), hcumq]
        omega
      by_cases hbreak : e ≤ leafTotal done + sq.length
      · have hc2 : ((leafTotal done : Int) + (sq.length : Int) ≥
            (s : Int) + ((e : Int) - (s : Int))) = True := eq_true (by omega)
        simp only [hc2, if_true]
        set eo := e - leafTotal done with heo
        have hcast2 : (s : Int) + ((e : Int) - (s : Int)) -
            (leafTotal done : Int) = ((eo : Nat) : Int) := by
          rw [heo]; omega
        rw [hcast2]
        have hmk := mkRangeI_leaves t q q sq sq fo eo hq hq
          (by omega) (by omega) (Or.inl ⟨rfl, by omega⟩)
        rw [hmk]
        refine ⟨⟨q, fo, q, eo⟩, rfl, habs, ?_⟩
        show absPos t q eo = e
        rw [absPos_leaf hq (by omega), hcumq]
        omega
      · have hc2 : ((leafTotal done : Int) + (sq.length : Int) ≥
            (s : Int) + ((e : Int) - (s : Int))) = False := eq_false (by omega)
        simp only [hc2, if_false]
        have hcast3 : (leafTotal done : Int) + (sq.length : Int) =
            ((leafTotal (done ++ [(q, sq)]) : Nat) : Int) := by
          rw [hl1]; omega
        rw [hcast3]
        have hbefore : ∀ x ∈ rest, keyLtAll q x.1 := by
          have hpw := leaves_pairwise t
          rw [hsplit] at hpw
          have := (List.pairwise_append.mp hpw).2.1
          intro x hx
          exact (List.pairwise_cons.mp this).1 x hx
        exact fraLoop_found t s e he q fo sq hq (by omega) habs rest
          (done ++ [(q, sq)]) (by rw [hsplit]; simp) (by rw [hl1]; omega)
          hbefore
    · have hc1 : ((leafTotal done : Int) + (sq.length : Int) > (s : Int)) =
          False := eq_false (by omega)
      have hc2 : ((leafTotal done : Int) + (sq.length : Int) ≥
          (s : Int) + ((e : Int) - (s : Int))) = False := eq_false (by omega)
      simp only [hc1, hc2, if_false]
      have hcast3 : (leafTotal done : Int) + (sq.length : Int) =
          ((leafTotal (done ++ [(q, sq)]) : Nat) : Int) := by
        rw [hl1]; omega
      rw [hcast3]
      exact ih (done ++ [(q, sq)]) (by rw [hsplit]; simp) (by omega)

/-- `findRangeAtOffset` succeeds for any in-range, positive-length request
and returns a range at exactly the requested absolute positions. -/
theorem findRangeAtOffset_resolves (t : DomNode) (s e : Nat) (hse : s < e)
    (he : e ≤ (fullText t).length) :
    ∃ r : RangeM,
      findRangeAtOffset t (s : Int) ((e : Int) - (s : Int)) = .ok (some r) ∧
      absPos t r.sPath r.sOff = s ∧ absPos t r.ePath r.eOff = e := by
  have h := fraLoop_seek t s e hse he (leaves t) [] (by simp)
    (by simp [leafTotal])
  simpa [findRangeAtOffset, leafTotal] using h

/-- C3 (amended): the round-trip holds for every non-empty, non-whitespace
selection whose boundary containers are text nodes (the selections the
text walk can see): resolving the serialized anchor against the same
unmutated tree returns a non-null range whose text equals the selection's
text after stripping — exactly, when the offset tier resolves it; when the
structural tier accepts a stored range, only stripped equality is
guaranteed.  For boundary containers outside the text walk the round-trip
can fail outright (see the counterexample). -/
theorem roundtrip_text_boundaries (t : DomNode) (r : RangeM) (s1 s2 : Str)
    (h1 : nodeAt t r.sPath = some (.text s1)) (ho1 : r.sOff ≤ s1.length)
    (h2 : nodeAt t r.ePath = some (.text s2)) (ho2 : r.eOff ≤ s2.length)
    (hq : strip (rangeText t r) ≠ []) :
    ∃ (a : AnchorM) (r' : RangeM),
      serializeRange t r = some a ∧
      deserializeRange t a = .ok (some r') ∧
      strip (rangeText t r') = strip (rangeText t r) := by
  have hrne : rangeText t r ≠ [] := fun h0 => hq (by rw [h0]; rfl)
  have hgto1 : getTextOffset t r.sPath r.sOff = absPos t r.sPath r.sOff :=
    getTextOffset_leaf h1 ho1
  have hgto2 : getTextOffset t r.ePath r.eOff = absPos t r.ePath r.eOff :=
    getTextOffset_leaf h2 ho2
  have hlt : absPos t r.sPath r.sOff < absPos t r.ePath r.eOff := by
    by_contra hc
    apply hrne
    unfold rangeText
    have hz : absPos t r.ePath r.eOff - absPos t r.sPath r.sOff = 0 := by omega
    rw [hz]
    simp
  have he2 : absPos t r.ePath r.eOff ≤ (fullText t).length := absPos_le t _ _
  have hser : serializeRange t r = some
      { start_offset := (getTextOffset t r.sPath r.sOff : Int)
        end_offset := (getTextOffset t r.ePath r.eOff : Int)
        start_context := (getContext t r).1
        end_context := (getContext t r).2
        range := some
          { startContainer := getXPath t r.sPath
            startOffset := r.sOff
            endContainer := getXPath t r.ePath
            endOffset := r.eOff
            commonAncestor := getXPath t (commonAncestorPath r.sPath r.ePath) }
        quoteText := some (strip (rangeText t r)) } := by
    unfold serializeRange
    rw [if_neg hq]
  set a : AnchorM :=
    { start_offset := (getTextOffset t r.sPath r.sOff : Int)
      end_offset := (getTextOffset t r.ePath r.eOff : Int)
      start_context := (getContext t r).1
      end_context := (getContext t r).2
      range := some
        { startContainer := getXPath t r.sPath
          startOffset := r.sOff
          endContainer := getXPath t r.ePath
          endOffset := r.eOff
          commonAncestor := getXPath t (commonAncestorPath r.sPath r.ePath) }
      quoteText := some (strip (rangeText t r)) } with ha
  refine ⟨a, ?_⟩
  cases hsr : structuralReplay t a with
  | ok v =>
    cases v with
    | some r1 =>
      refine ⟨r1, hser, ?_, ?_⟩
      · unfold deserializeRange
        rw [hsr]
      · have hquote := (structuralReplay_quote hsr).2
        have hget : a.quoteText.getD [] = strip (rangeText t r) := rfl
        rw [hquote, hget, strip_strip]
    | none =>
      obtain ⟨r', hr', habs1, habs2⟩ := findRangeAtOffset_resolves t
        (absPos t r.sPath r.sOff) (absPos t r.ePath r.eOff) hlt he2
      refine ⟨r', hser, ?_, ?_⟩
      · rw [deserialize_fallback (Or.inl hsr)]
        have e1 : a.start_offset = ((absPos t r.sPath r.sOff : Nat) : Int) := by
          rw [ha]
          simp [hgto1]
        have e2 : a.end_offset = ((absPos t r.ePath r.eOff : Nat) : Int) := by
          rw [ha]
          simp [hgto2]
        rw [e1, e2]
        exact hr'
      · have : rangeText t r' = rangeText t r := by
          unfold rangeText
          rw [habs1, habs2]
        rw [this]
  | error err =>
    obtain ⟨r', hr', habs1, habs2⟩ := findRangeAtOffset_resolves t
      (absPos t r.sPath r.sOff) (absPos t r.ePath r.eOff) hlt he2
    refine ⟨r', hser, ?_, ?_⟩
    · rw [deserialize_fallback (Or.inr (by rw [hsr]))]
      have e1 : a.start_offset = ((absPos t r.sPath r.sOff : Nat) : Int) := by
        rw [ha]
        simp [hgto1]
      have e2 : a.end_offset = ((absPos t r.ePath r.eOff : Nat) : Int) := by
        rw [ha]
        simp [hgto2]
      rw [e1, e2]
      exact hr'
    · have : rangeText t r' = rangeText t r := by
        unfold rangeText
        rw [habs1, habs2]
      rw [this]

/-- C3 (witness): the amended round-trip at a concrete page. -/
theorem roundtrip_text_boundaries_witness :
    ∃ (a : AnchorM) (r' : RangeM),
      serializeRange witTreeP witRangeP = some a ∧
      deserializeRange witTreeP a = .ok (some r') ∧
      strip (rangeText witTreeP r') = strip (rangeText witTreeP witRangeP) :=
  roundtrip_text_boundaries witTreeP witRangeP "hi".toList "hi".toList
    rfl (by decide) rfl (by decide) (by decide)

/-- C5 (amended): every accepted serialization has a non-empty quote on
both surfaces; `documentOffsets.end > documentOffsets.start` always holds
for PDF anchors, and for web anchors whenever both boundary containers are
text nodes visited by the document text walk — selections whose boundary
nodes the walk cannot see can degenerate to `end = start` (see the
counterexample). -/
theorem serialize_invariants (t : DomNode) (r : RangeM) (a : AnchorM) :
    (createPDFHighlight t (some r) = some a →
      (∃ q, a.quote_text = some q ∧ q ≠ []) ∧ a.start_offset < a.end_offset) ∧
    (serializeRange t r = some a →
      (∃ q, a.quoteText = some q ∧ q ≠ []) ∧
      (∀ s1 s2 : Str,
        nodeAt t r.sPath = some (.text s1) → r.sOff ≤ s1.length →
        nodeAt t r.ePath = some (.text s2) → r.eOff ≤ s2.length →
        a.start_offset < a.end_offset)) := by
  constructor
  · intro h
    unfold createPDFHighlight at h
    by_cases hc : collapsed r = true
    · simp [hc] at h
    · by_cases hq : strip (rangeText t r) = []
      · simp [hc, hq] at h
      · simp only [hc, hq, if_false, Bool.false_eq_true, Option.some.injEq] at h
        subst h
        refine ⟨⟨strip (rangeText t r), rfl, hq⟩, ?_⟩
        show (0 : Int) < ((strip (rangeText t r)).length : Int)
        have : strip (rangeText t r) ≠ [] := hq
        have hlen : 0 < (strip (rangeText t r)).length :=
          List.length_pos.mpr this
        omega
  · intro h
    unfold serializeRange at h
    by_cases hq : strip (rangeText t r) = []
    · simp [hq] at h
    · simp only [hq, if_false, Option.some.injEq] at h
      subst h
      refine ⟨⟨strip (rangeText t r), rfl, hq⟩, ?_⟩
      intro s1 s2 h1 ho1 h2 ho2
      have hrne : rangeText t r ≠ [] := fun h0 => hq (by rw [h0]; rfl)
      have hlt : absPos t r.sPath r.sOff < absPos t r.ePath r.eOff := by
        by_contra hc
        apply hrne
        unfold rangeText
        have hz : absPos t r.ePath r.eOff - absPos t r.sPath r.sOff = 0 := by
          omega
        rw [hz]
        simp
      show ((getTextOffset t r.sPath r.sOff : Nat) : Int) <
        ((getTextOffset t r.ePath r.eOff : Nat) : Int)
      rw [getTextOffset_leaf h1 ho1, getTextOffset_leaf h2 ho2]
      omega

/-- C5 (witness): the amended invariants at concrete selections on both
surfaces. -/
theorem serialize_invariants_witness :
    ((∃ q, cexAnchorPdf.quote_text = some q ∧ q ≠ []) ∧
      cexAnchorPdf.start_offset < cexAnchorPdf.end_offset) ∧
    ((∃ q, witAnchorP.quoteText = some q ∧ q ≠ []) ∧
      witAnchorP.start_offset < witAnchorP.end_offset) :=
  ⟨(serialize_invariants cexTreePdf cexRangePdf cexAnchorPdf).1 (by decide),
   ⟨((serialize_invariants witTreeP witRangeP witAnchorP).2 (by decide)).1,
    ((serialize_invariants witTreeP witRangeP witAnchorP).2 (by decide)).2
      "hi".toList "hi".toList rfl (by decide) rfl (by decide)⟩⟩

end EmbedAI
